import Mathlib

set_option maxRecDepth 10000

/-!
Verification of the SCOTUS tracker auto-updater (`scripts/update_scotus.py`).

The script is embedded shallowly:

* JSON values (the results of Python `json.loads`) are the mutually
  inductive types `Json` / `JArr` / `JObj` (a value, a list of values, an
  insertion-ordered list of string-keyed fields, as Python 3.7+ dicts are).
  Numbers are modelled as integers; fractional and exponent literals, and
  floating point generally, are outside the model.
* Python operations used by the script (`==` on parsed values, `in`,
  subscription, `dict.get`, `str()`, truthiness, `json.dumps`,
  `json.loads`, `str.strip`/`split`/`rsplit`/`startswith`/`endswith`,
  `max`) are executable Lean functions mirroring Python semantics.
  An operation that can raise a Python exception returns `Option` /
  `Except`, with `none` / `.error` standing for the raised exception.
* A run of the script is a pure function from its external inputs (the
  parsed stored dataset, the text returned by the research client, today's
  date string, the environment) to a trace of observable events (storage
  read, API call, storage write, stdout lines, stderr lines) plus an
  outcome: `some true` / `some false` for `return True` / `return False`
  from `update_cases`, `none` for an uncaught Python exception.
-/

mutual
/-- A parsed JSON document (the result of Python `json.loads`).  Numbers
are modelled as integers. -/
inductive Json where
  | null : Json
  | bool : Bool → Json
  | num : Int → Json
  | str : String → Json
  | arr : JArr → Json
  | obj : JObj → Json
/-- A JSON array: a list of JSON values. -/
inductive JArr where
  | nil : JArr
  | cons : Json → JArr → JArr
/-- A JSON object: fields in insertion order, as a Python dict keeps them. -/
inductive JObj where
  | nil : JObj
  | cons : String → Json → JObj → JObj
end

/-- The underlying list of an array. -/
def JArr.toList : JArr → List Json
  | .nil => []
  | .cons x xs => x :: JArr.toList xs

/-- The underlying association list of an object. -/
def JObj.toList : JObj → List (String × Json)
  | .nil => []
  | .cons k v fs => (k, v) :: JObj.toList fs

/-- Build an array from a list of values. -/
def JArr.ofList : List Json → JArr
  | [] => .nil
  | x :: xs => .cons x (JArr.ofList xs)

/-- Build an object from an association list. -/
def JObj.ofList : List (String × Json) → JObj
  | [] => .nil
  | (k, v) :: fs => .cons k v (JObj.ofList fs)

/-- Look up a key in an object (first occurrence; parsed objects never
contain duplicate keys, since Python dicts cannot). -/
def JObj.lookup (k : String) : JObj → Option Json
  | .nil => none
  | .cons k' v rest => if k' = k then some v else JObj.lookup k rest

/-- Does the object have the key?  (Python `k in d` for a dict.) -/
def JObj.hasKey (fs : JObj) (k : String) : Bool :=
  (JObj.lookup k fs).isSome

/-- Python `d[k] = v` on a dict: replace the value at an existing key in
place, otherwise append the new binding at the end. -/
def JObj.set : JObj → String → Json → JObj
  | .nil, k, v => .cons k v .nil
  | .cons k' v' rest, k, v =>
    if k' = k then .cons k v rest else .cons k' v' (JObj.set rest k v)

/-- The dict comprehension
`{k: v for k, v in d.items() if k != "lastUpdated"}`. -/
def JObj.stripLU : JObj → JObj
  | .nil => .nil
  | .cons k v rest =>
    if k = "lastUpdated" then JObj.stripLU rest
    else .cons k v (JObj.stripLU rest)

/-- Number of fields (Python `len(d)`). -/
def JObj.length : JObj → Nat
  | .nil => 0
  | .cons _ _ rest => JObj.length rest + 1

/-- Number of elements (Python `len(l)`). -/
def JArr.length : JArr → Nat
  | .nil => 0
  | .cons _ rest => JArr.length rest + 1

mutual
/-- Python `==` on parsed JSON values.  Python equality identifies `True`
with `1` and `False` with `0` (`bool` is a subclass of `int`), compares
dicts by key/value content regardless of insertion order, and compares
lists pointwise. -/
def pyEq : Json → Json → Bool
  | .null, .null => true
  | .bool b, .bool c => b = c
  | .bool b, .num n => (if b then (1 : Int) else 0) = n
  | .num n, .bool b => n = (if b then (1 : Int) else 0)
  | .num n, .num m => n = m
  | .str s, .str t => s = t
  | .arr xs, .arr ys => pyEqArr xs ys
  | .obj fs, .obj gs => JObj.length fs = JObj.length gs && pyEqFields fs gs
  | _, _ => false
/-- Pointwise Python `==` on array contents. -/
def pyEqArr : JArr → JArr → Bool
  | .nil, .nil => true
  | .cons x xs, .cons y ys => pyEq x y && pyEqArr xs ys
  | _, _ => false
/-- Every binding of the first dict is present (by key) in the second dict
with a Python-equal value. -/
def pyEqFields : JObj → JObj → Bool
  | .nil, _ => true
  | .cons k v fs, gs =>
    (match JObj.lookup k gs with
     | some w => pyEq v w
     | none => false) && pyEqFields fs gs
end

mutual
/-- Structural equality test for JSON values. -/
def jsonBeq : Json → Json → Bool
  | .null, .null => true
  | .bool b, .bool c => b = c
  | .num n, .num m => n = m
  | .str s, .str t => s = t
  | .arr xs, .arr ys => jarrBeq xs ys
  | .obj fs, .obj gs => jobjBeq fs gs
  | _, _ => false
/-- Structural equality test for arrays. -/
def jarrBeq : JArr → JArr → Bool
  | .nil, .nil => true
  | .cons x xs, .cons y ys => jsonBeq x y && jarrBeq xs ys
  | _, _ => false
/-- Structural equality test for objects. -/
def jobjBeq : JObj → JObj → Bool
  | .nil, .nil => true
  | .cons k v fs, .cons k' w gs => k = k' && jsonBeq v w && jobjBeq fs gs
  | _, _ => false
end

mutual
theorem jsonBeq_iff : ∀ a b : Json, jsonBeq a b = true ↔ a = b
  | .null, b => by cases b <;> simp [jsonBeq]
  | .bool x, b => by cases b <;> simp [jsonBeq]
  | .num n, b => by cases b <;> simp [jsonBeq]
  | .str s, b => by cases b <;> simp [jsonBeq]
  | .arr xs, b => by
    cases b <;> simp [jsonBeq]
    exact jarrBeq_iff xs _
  | .obj fs, b => by
    cases b <;> simp [jsonBeq]
    exact jobjBeq_iff fs _
theorem jarrBeq_iff : ∀ xs ys : JArr, jarrBeq xs ys = true ↔ xs = ys
  | .nil, ys => by cases ys <;> simp [jarrBeq]
  | .cons x xs, ys => by
    cases ys <;> simp [jarrBeq]
    rw [jsonBeq_iff, jarrBeq_iff]
theorem jobjBeq_iff : ∀ fs gs : JObj, jobjBeq fs gs = true ↔ fs = gs
  | .nil, gs => by cases gs <;> simp [jobjBeq]
  | .cons k v fs, gs => by
    cases gs <;> simp [jobjBeq]
    rw [jsonBeq_iff, jobjBeq_iff]
    tauto
end

instance : DecidableEq Json := fun a b =>
  decidable_of_iff (jsonBeq a b = true) (jsonBeq_iff a b)

instance : DecidableEq JArr := fun a b =>
  decidable_of_iff (jarrBeq a b = true) (jarrBeq_iff a b)

instance : DecidableEq JObj := fun a b =>
  decidable_of_iff (jobjBeq a b = true) (jobjBeq_iff a b)

/-- Python truthiness of a parsed JSON value (`bool(x)`). -/
def pyTruthy : Json → Bool
  | .null => false
  | .bool b => b
  | .num n => n ≠ 0
  | .str s => s ≠ ""
  | .arr xs => xs ≠ .nil
  | .obj fs => fs ≠ .nil

/-- Left brace as a character (written by code point). -/
def lbrace : Char := Char.ofNat 123

/-- Right brace as a character (written by code point). -/
def rbrace : Char := Char.ofNat 125

mutual
/-- Python `str(x)` for a parsed JSON value, as used in f-strings:
a string renders as itself, scalars by their Python text, containers by
their `repr`. -/
def pyStr : Json → String
  | .str s => s
  | .null => "None"
  | .bool true => "True"
  | .bool false => "False"
  | .num n => toString n
  | .arr xs => "[" ++ pyReprArr xs ++ "]"
  | .obj fs =>
    String.singleton lbrace ++ pyReprFields fs ++ String.singleton rbrace
/-- Python `repr(x)` for a parsed JSON value.  A string is wrapped in
single quotes; this is exact for strings free of quotes, backslashes and
control characters (the only strings the claims exercise). -/
def pyRepr : Json → String
  | .str s => "'" ++ s ++ "'"
  | .null => "None"
  | .bool true => "True"
  | .bool false => "False"
  | .num n => toString n
  | .arr xs => "[" ++ pyReprArr xs ++ "]"
  | .obj fs =>
    String.singleton lbrace ++ pyReprFields fs ++ String.singleton rbrace
/-- Comma-separated `repr`s of array elements. -/
def pyReprArr : JArr → String
  | .nil => ""
  | .cons x .nil => pyRepr x
  | .cons x rest => pyRepr x ++ ", " ++ pyReprArr rest
/-- Comma-separated `'key': repr(value)` renderings of dict fields. -/
def pyReprFields : JObj → String
  | .nil => ""
  | .cons k v .nil => "'" ++ k ++ "': " ++ pyRepr v
  | .cons k v rest => "'" ++ k ++ "': " ++ pyRepr v ++ ", " ++ pyReprFields rest
end

/-- Python `repr` of a list of strings, e.g. `['id', 'name']`.  Exact for
strings free of quotes, backslashes and control characters; only ever
applied to the twelve fixed required-field names. -/
def reprStrList (l : List String) : String :=
  "[" ++ String.intercalate ", " (l.map (fun s => "'" ++ s ++ "'")) ++ "]"

/-- Python subscription `x[k]` with a string key.  Succeeds only on a dict
with the key present; a missing key raises `KeyError`, any other receiver
raises `TypeError` — both modelled as `none`. -/
def pyGetItem (j : Json) (k : String) : Option Json :=
  match j with
  | .obj fs => JObj.lookup k fs
  | _ => none

/-- Python `d.get(k, default)`.  Only a dict has `.get`; any other receiver
raises `AttributeError`, modelled as `none`. -/
def pyDictGetD (j : Json) (k : String) (dflt : Json) : Option Json :=
  match j with
  | .obj fs => some ((JObj.lookup k fs).getD dflt)
  | _ => none

/-- Python `d.get(k)` (default `None`).  `None` is also what a JSON `null`
value parses to, so a missing key and an explicit `null` coincide, exactly
as in the script. -/
def pyDictGet (j : Json) (k : String) : Option Json :=
  pyDictGetD j k .null

/-- Does `pat` occur as a contiguous sublist of `l`? (Python `in` on
strings.) -/
def listContainsSub (pat : List Char) : List Char → Bool
  | [] => pat.isEmpty
  | c :: rest => pat.isPrefixOf (c :: rest) || listContainsSub pat rest

/-- Elementwise `x == needle` search in a list (Python `needle in xs`). -/
def arrContainsStr (needle : String) : JArr → Bool
  | .nil => false
  | .cons x rest => pyEq x (.str needle) || arrContainsStr needle rest

/-- Python `needle in j` for a string needle: key test on a dict,
substring test on a string, elementwise `==` on a list; `TypeError`
(modelled `none`) on any other value. -/
def pyContains (needle : String) (j : Json) : Option Bool :=
  match j with
  | .obj fs => some (fs.hasKey needle)
  | .str s => some (listContainsSub needle.data s.data)
  | .arr xs => some (arrContainsStr needle xs)
  | _ => none

/-- Python `int` value of a parsed JSON value that is an `int` (recall
`bool` is a subclass of `int`: `True` is `1`, `False` is `0`);
`none` for any other type. -/
def pyIntVal : Json → Option Int
  | .num n => some n
  | .bool true => some 1
  | .bool false => some 0
  | _ => none

/-- The characters Python `str.strip()` removes (the ASCII whitespace
subset of Python's Unicode whitespace; the script only ever meets these). -/
def isPySpace (c : Char) : Bool :=
  c = ' ' || c = '\t' || c = '\n' || c = '\r' ||
    c = Char.ofNat 11 || c = Char.ofNat 12

/-- Python `str.strip()` on a character list. -/
def pstrip (l : List Char) : List Char :=
  ((l.dropWhile isPySpace).reverse.dropWhile isPySpace).reverse

/-- The fenced-code-block marker. -/
def fence : List Char := "```".data

/-- Python `s.split("\n", 1)[1]`: everything after the first newline;
`none` (an `IndexError`) when the string has no newline, since the split
then yields a single-element list. -/
def afterFirstNL : List Char → Option (List Char)
  | [] => none
  | c :: rest => if c = '\n' then some rest else afterFirstNL rest

/-- The index (0-based) of the last occurrence of the fence marker in `l`,
if any. -/
def lastFenceIdx (l : List Char) : Option Nat :=
  ((List.range (l.length + 1)).filter
    (fun i => fence.isPrefixOf (l.drop i))).getLast?

/-- Python `s.rsplit("```", 1)[0]`: everything before the last occurrence
of the marker (the whole string when the marker is absent). -/
def cutLastFence (l : List Char) : List Char :=
  match lastFenceIdx l with
  | some i => l.take i
  | none => l

/-- The response normalizer, lines 78-85 of the script:
`raw = text.strip()`; if `raw.startswith("```")` then
`raw = raw.split("\n", 1)[1]`; if `raw.endswith("```")` then
`raw = raw.rsplit("```", 1)[0]`; `raw = raw.strip()`.
Returns `none` when the script would raise `IndexError` (a stripped text
that opens with the fence marker but contains no newline). -/
def pyNormalize (s : String) : Option String :=
  let r0 := pstrip s.data
  let r1 := if fence.isPrefixOf r0 then afterFirstNL r0 else some r0
  r1.map (fun r1 =>
    let r2 := if fence.isSuffixOf r1 then cutLastFence r1 else r1
    ⟨pstrip r2⟩)


/-- The hexadecimal digit characters, lowercase as Python's `\uXXXX`
escapes use. -/
def hexDigit : Nat → Char
  | 0 => '0' | 1 => '1' | 2 => '2' | 3 => '3' | 4 => '4'
  | 5 => '5' | 6 => '6' | 7 => '7' | 8 => '8' | 9 => '9'
  | 10 => 'a' | 11 => 'b' | 12 => 'c' | 13 => 'd' | 14 => 'e' | 15 => 'f'
  | _ => '0'

/-- Four hex digits, most significant first. -/
def hex4 (n : Nat) : List Char :=
  [hexDigit (n / 4096 % 16), hexDigit (n / 256 % 16),
   hexDigit (n / 16 % 16), hexDigit (n % 16)]

/-- Decimal digits of a natural number, most significant first, computed
with explicit fuel so that the definition reduces in the kernel. -/
def natDigitsF : Nat → Nat → List Char
  | 0, _ => []
  | fuel + 1, n =>
    if n < 10 then [hexDigit n]
    else natDigitsF fuel (n / 10) ++ [hexDigit (n % 10)]

/-- Decimal representation of a natural number (no leading zeros). -/
def natDigits (n : Nat) : List Char := natDigitsF (n + 1) n

/-- Python `str` of an `int`: optional minus sign followed by the decimal
digits. -/
def intRepr (i : Int) : List Char :=
  if i < 0 then '-' :: natDigits i.natAbs else natDigits i.toNat

/-- Python `str` of an `int`, as a string. -/
def intStr (i : Int) : String := ⟨intRepr i⟩

/-- One character of a JSON string, escaped as Python `json.dumps` does.
With `ascii` (the default `ensure_ascii=True`) every character outside
printable ASCII becomes a `\uXXXX` escape (a surrogate pair beyond the
BMP); with `ascii := false` only the quote, the backslash and control
characters are escaped. -/
def escCharA (ascii : Bool) (c : Char) : List Char :=
  if c = '"' then ['\\', '"']
  else if c = '\\' then ['\\', '\\']
  else if c = '\n' then ['\\', 'n']
  else if c = '\r' then ['\\', 'r']
  else if c = '\t' then ['\\', 't']
  else if c.toNat = 8 then ['\\', 'b']
  else if c.toNat = 12 then ['\\', 'f']
  else if c.toNat < 32 then '\\' :: 'u' :: hex4 c.toNat
  else if !ascii then [c]
  else if c.toNat < 127 then [c]
  else if c.toNat < 65536 then '\\' :: 'u' :: hex4 c.toNat
  else
    '\\' :: 'u' :: hex4 (55296 + (c.toNat - 65536) / 1024) ++
      '\\' :: 'u' :: hex4 (56320 + (c.toNat - 65536) % 1024)

/-- Escape every character of a string body. -/
def escList (ascii : Bool) : List Char → List Char
  | [] => []
  | c :: cs => escCharA ascii c ++ escList ascii cs

/-- A JSON string literal: quote, escaped body, quote. -/
def escString (ascii : Bool) (s : String) : List Char :=
  '"' :: (escList ascii s.data ++ ['"'])

/-- Code-point comparison of characters. -/
def charLt (a b : Char) : Bool := a.toNat < b.toNat

/-- Python `<` on strings: lexicographic by code point. -/
def strLt : List Char → List Char → Bool
  | [], [] => false
  | [], _ :: _ => true
  | _ :: _, [] => false
  | a :: as, b :: bs => charLt a b || (a = b && strLt as bs)

/-- Stable insertion of a field into a key-sorted field list: the new field
goes in front of the first field whose key is not smaller. -/
def JObj.insertSorted (k : String) (v : Json) : JObj → JObj
  | .nil => .cons k v .nil
  | .cons k' v' rest =>
    if strLt k'.data k.data then .cons k' v' (JObj.insertSorted k v rest)
    else .cons k v (.cons k' v' rest)

/-- Sort an object's fields by key (stable ascending, the order
`sorted(dict)` and hence `json.dumps(..., sort_keys=True)` uses). -/
def JObj.sortFields : JObj → JObj
  | .nil => .nil
  | .cons k v rest => JObj.insertSorted k v (JObj.sortFields rest)

mutual
/-- Recursively sort every object's fields by key, leaving everything else
unchanged.  This is exactly the key order in which
`json.dumps(..., sort_keys=True)` visits each object, so serializing a
`sortNorm`-normalized value in field order is that serializer's output. -/
def sortNorm : Json → Json
  | .null => .null
  | .bool b => .bool b
  | .num n => .num n
  | .str s => .str s
  | .arr xs => .arr (sortNormArr xs)
  | .obj fs => .obj (JObj.sortFields (sortNormFields fs))
/-- `sortNorm` on each element. -/
def sortNormArr : JArr → JArr
  | .nil => .nil
  | .cons x xs => .cons (sortNorm x) (sortNormArr xs)
/-- `sortNorm` on each field value (keys and their order untouched). -/
def sortNormFields : JObj → JObj
  | .nil => .nil
  | .cons k v fs => .cons k (sortNorm v) (sortNormFields fs)
end

mutual
/-- Serialize a value in field order with `json.dumps` default separators
`", "` and `": "` and `ensure_ascii=True` escaping. -/
def emitVal : Json → List Char
  | .null => ['n', 'u', 'l', 'l']
  | .bool b => if b then ['t', 'r', 'u', 'e'] else ['f', 'a', 'l', 's', 'e']
  | .num n => intRepr n
  | .str s => escString true s
  | .arr xs => '[' :: (emitArr xs ++ [']'])
  | .obj fs => lbrace :: (emitFields fs ++ [rbrace])
/-- Array elements joined by `", "`. -/
def emitArr : JArr → List Char
  | .nil => []
  | .cons x .nil => emitVal x
  | .cons x rest => emitVal x ++ ',' :: ' ' :: emitArr rest
/-- Fields rendered `"key": value` and joined by `", "`. -/
def emitFields : JObj → List Char
  | .nil => []
  | .cons k v .nil => escString true k ++ ':' :: ' ' :: emitVal v
  | .cons k v rest =>
    escString true k ++ ':' :: ' ' :: emitVal v ++ ',' :: ' ' :: emitFields rest
end

/-- `json.dumps(x, sort_keys=True)` — the serialization the reconciler
compares.  `sort_keys=True` makes the serializer visit every object in
sorted key order, which is the field order of `sortNorm x`. -/
def dumps (j : Json) : String := ⟨emitVal (sortNorm j)⟩

/-- Two spaces of indentation per level (`indent=2`). -/
def indentSp (lvl : Nat) : List Char := List.replicate (2 * lvl) ' '

mutual
/-- Serialize with `indent=2` as Python `json.dumps` does: containers open
with a newline, indent items one level deeper, separate them with `",\n"`,
and close on a fresh line at the enclosing level; empty containers render
inline. -/
def emitIndVal (ascii : Bool) (lvl : Nat) : Json → List Char
  | .null => ['n', 'u', 'l', 'l']
  | .bool b => if b then ['t', 'r', 'u', 'e'] else ['f', 'a', 'l', 's', 'e']
  | .num n => intRepr n
  | .str s => escString ascii s
  | .arr .nil => ['[', ']']
  | .arr (.cons x xs) =>
    '[' :: '\n' :: (emitIndArr ascii (lvl + 1) (.cons x xs) ++
      '\n' :: (indentSp lvl ++ [']']))
  | .obj .nil => [lbrace, rbrace]
  | .obj (.cons k v fs) =>
    lbrace :: '\n' :: (emitIndFields ascii (lvl + 1) (.cons k v fs) ++
      '\n' :: (indentSp lvl ++ [rbrace]))
/-- Indented array elements joined by `",\n"`. -/
def emitIndArr (ascii : Bool) (lvl : Nat) : JArr → List Char
  | .nil => []
  | .cons x .nil => indentSp lvl ++ emitIndVal ascii lvl x
  | .cons x rest =>
    indentSp lvl ++ emitIndVal ascii lvl x ++ ',' :: '\n' ::
      emitIndArr ascii lvl rest
/-- Indented fields joined by `",\n"`. -/
def emitIndFields (ascii : Bool) (lvl : Nat) : JObj → List Char
  | .nil => []
  | .cons k v .nil =>
    indentSp lvl ++ escString ascii k ++ ':' :: ' ' :: emitIndVal ascii lvl v
  | .cons k v rest =>
    indentSp lvl ++ escString ascii k ++ ':' :: ' ' :: emitIndVal ascii lvl v ++
      ',' :: '\n' :: emitIndFields ascii lvl rest
end

/-- `json.dumps(x, indent=2, ensure_ascii=False)` — the persisted format. -/
def dumpsPersist (j : Json) : String := ⟨emitIndVal false 0 j⟩

/-- `json.dumps(x, indent=2)` — the serialization embedded in the prompt
(default `ensure_ascii=True`). -/
def dumpsPrompt (j : Json) : String := ⟨emitIndVal true 0 j⟩

/-- JSON whitespace (what `json.loads` skips between tokens). -/
def skipWs (l : List Char) : List Char :=
  l.dropWhile (fun c => c = ' ' || c = '\t' || c = '\n' || c = '\r')

/-- The value of a hexadecimal digit character, if it is one. -/
def hexVal (c : Char) : Option Nat :=
  if 48 ≤ c.toNat ∧ c.toNat ≤ 57 then some (c.toNat - 48)
  else if 97 ≤ c.toNat ∧ c.toNat ≤ 102 then some (c.toNat - 87)
  else if 65 ≤ c.toNat ∧ c.toNat ≤ 70 then some (c.toNat - 55)
  else none

/-- Is this a decimal digit? -/
def isDigitC (c : Char) : Bool := 48 ≤ c.toNat && c.toNat ≤ 57

/-- Decode one escape sequence after a backslash, returning the decoded
character and the remaining input.  Surrogate pair escapes are combined; a
lone surrogate escape (which CPython would turn into a non-scalar string)
is outside the model and rejected. -/
def decodeEsc : List Char → Except String (Char × List Char)
  | '"' :: r => .ok ('"', r)
  | '\\' :: r => .ok ('\\', r)
  | '/' :: r => .ok ('/', r)
  | 'b' :: r => .ok (Char.ofNat 8, r)
  | 'f' :: r => .ok (Char.ofNat 12, r)
  | 'n' :: r => .ok ('\n', r)
  | 'r' :: r => .ok ('\r', r)
  | 't' :: r => .ok ('\t', r)
  | 'u' :: h1 :: h2 :: h3 :: h4 :: r =>
    (match hexVal h1, hexVal h2, hexVal h3, hexVal h4 with
     | some a, some b, some c, some d =>
       let n := a * 4096 + b * 256 + c * 16 + d
       if 55296 ≤ n ∧ n < 56320 then
         (match r with
          | '\\' :: 'u' :: g1 :: g2 :: g3 :: g4 :: r' =>
            (match hexVal g1, hexVal g2, hexVal g3, hexVal g4 with
             | some a', some b', some c', some d' =>
               let m := a' * 4096 + b' * 256 + c' * 16 + d'
               if 56320 ≤ m ∧ m < 57344 then
                 .ok (Char.ofNat (65536 + (n - 55296) * 1024 + (m - 56320)), r')
               else .error "lone surrogate escape outside model"
             | _, _, _, _ => .error "Invalid \\uXXXX escape")
          | _ => .error "lone surrogate escape outside model")
       else if 56320 ≤ n ∧ n < 57344 then
         .error "lone surrogate escape outside model"
       else .ok (Char.ofNat n, r)
     | _, _, _, _ => .error "Invalid \\uXXXX escape")
  | _ => .error "Invalid \\escape"

/-- Body of a JSON string literal after the opening quote: unescape up to
the closing quote, returning the body and the remaining input. -/
def parseStrBody : Nat → List Char → Except String (List Char × List Char)
  | 0, _ => .error "Unterminated string"
  | fuel + 1, l =>
    match l with
    | [] => .error "Unterminated string"
    | '"' :: r => .ok ([], r)
    | '\\' :: r =>
      (match decodeEsc r with
       | .ok (c, r') =>
         (match parseStrBody fuel r' with
          | .ok (body, rest) => .ok (c :: body, rest)
          | .error e => .error e)
       | .error e => .error e)
    | c :: r =>
      if c.toNat < 32 then .error "Invalid control character"
      else
        (match parseStrBody fuel r with
         | .ok (body, rest) => .ok (c :: body, rest)
         | .error e => .error e)

/-- A JSON integer literal at the head of the input: optional minus sign
and decimal digits.  A fractional part or exponent is a float, which is
outside the model. -/
def parseNum (l : List Char) : Except String (Json × List Char) :=
  let core : List Char → Except String (Int × List Char) := fun ds =>
    match ds.span isDigitC with
    | ([], _) => .error "Expecting value"
    | (digs, rest) =>
      match rest with
      | '.' :: _ => .error "float literals outside model"
      | 'e' :: _ => .error "float literals outside model"
      | 'E' :: _ => .error "float literals outside model"
      | _ =>
        .ok (Int.ofNat (digs.foldl (fun acc c => acc * 10 + (c.toNat - 48)) 0),
          rest)
  match l with
  | '-' :: r =>
    (match core r with
     | .ok (n, rest) => .ok (.num (-n), rest)
     | .error e => .error e)
  | _ =>
    (match core l with
     | .ok (n, rest) => .ok (.num n, rest)
     | .error e => .error e)

mutual
/-- One JSON value at the head of the input (leading whitespace allowed),
with the remaining input. -/
def parseVal : Nat → List Char → Except String (Json × List Char)
  | 0, _ => .error "input too deep"
  | fuel + 1, l =>
    match skipWs l with
    | 'n' :: 'u' :: 'l' :: 'l' :: r => .ok (.null, r)
    | 't' :: 'r' :: 'u' :: 'e' :: r => .ok (.bool true, r)
    | 'f' :: 'a' :: 'l' :: 's' :: 'e' :: r => .ok (.bool false, r)
    | '"' :: r =>
      (match parseStrBody (fuel + 1) r with
       | .ok (body, rest) => .ok (.str ⟨body⟩, rest)
       | .error e => .error e)
    | '[' :: r =>
      (match skipWs r with
       | ']' :: r' => .ok (.arr .nil, r')
       | _ =>
         match parseVal fuel r with
         | .ok (v, r') =>
           (match parseArrSep fuel r' with
            | .ok (xs, r'') => .ok (.arr (.cons v xs), r'')
            | .error e => .error e)
         | .error e => .error e)
    | c :: r =>
      if c = lbrace then
        match skipWs r with
        | d :: r' =>
          if d = rbrace then .ok (.obj .nil, r')
          else
            (match parseMember fuel (d :: r') .nil with
             | .ok (fs, r'') => .ok (.obj fs, r'')
             | .error e => .error e)
        | [] => .error "Expecting property name"
      else if c = '-' || isDigitC c then parseNum (c :: r)
      else .error "Expecting value"
    | [] => .error "Expecting value"
/-- After a parsed array element: a comma and another element, or the
closing bracket. -/
def parseArrSep : Nat → List Char → Except String (JArr × List Char)
  | 0, _ => .error "input too deep"
  | fuel + 1, l =>
    match skipWs l with
    | ',' :: r =>
      (match parseVal fuel r with
       | .ok (v, r') =>
         (match parseArrSep fuel r' with
          | .ok (xs, r'') => .ok (.cons v xs, r'')
          | .error e => .error e)
       | .error e => .error e)
    | ']' :: r => .ok (.nil, r)
    | _ => .error "Expecting delimiter"
/-- One `"key": value` member and the members after it, accumulated with
dict assignment (so a repeated key keeps its first position and last
value, as `json.loads` does). -/
def parseMember : Nat → List Char → JObj → Except String (JObj × List Char)
  | 0, _, _ => .error "input too deep"
  | fuel + 1, l, acc =>
    match skipWs l with
    | '"' :: r =>
      (match parseStrBody (fuel + 1) r with
       | .ok (body, r') =>
         (match skipWs r' with
          | ':' :: r'' =>
            (match parseVal fuel r'' with
             | .ok (v, r3) =>
               let acc' := JObj.set acc ⟨body⟩ v
               (match skipWs r3 with
                | ',' :: r4 => parseMember fuel r4 acc'
                | d :: r4 =>
                  if d = rbrace then .ok (acc', r4)
                  else .error "Expecting delimiter"
                | [] => .error "Expecting delimiter")
             | .error e => .error e)
          | _ => .error "Expecting colon delimiter")
       | .error e => .error e)
    | _ => .error "Expecting property name"
end

/-- `json.loads`: parse a complete document, requiring only whitespace
after the value. -/
def jsonParse (s : String) : Except String Json :=
  match parseVal (s.length + 8) s.data with
  | .ok (v, rest) =>
    (match skipWs rest with
     | [] => .ok v
     | _ => .error "Extra data")
  | .error e => .error e

instance {ε α : Type} [DecidableEq ε] [DecidableEq α] : DecidableEq (Except ε α)
  | .ok a, .ok b => decidable_of_iff (a = b) (by simp)
  | .error e, .error f => decidable_of_iff (e = f) (by simp)
  | .ok _, .error _ => isFalse (by simp)
  | .error _, .ok _ => isFalse (by simp)

/-- The `id` of every element, as Python ints (`bool` counts as int);
`none` when an element has no `id` (or is not a dict) or an `id` is not an
int — the cases where `max(c['id'] for c in cases) + 1` raises. -/
def idsOf : JArr → Option (List Int)
  | .nil => some []
  | .cons c rest => do
    let idv ← pyGetItem c "id"
    let i ← pyIntVal idv
    let is ← idsOf rest
    some (i :: is)

/-- The expression
`max(c['id'] for c in current_data['cases']) + 1 if current_data['cases'] else 1`
from the prompt builder, given the value of `current_data['cases']`.
A falsy value yields `1` without touching the generator.  Iterating a
truthy non-list (a string yields characters, a dict yields keys, a number
is not iterable) makes `c['id']` or `max` raise, modelled `none`. -/
def nextIdNum (casesVal : Json) : Option Int :=
  if pyTruthy casesVal then
    match casesVal with
    | .arr xs =>
      (match idsOf xs with
       | some (i :: is) => some (is.foldl max i + 1)
       | _ => none)
    | _ => none
  else some 1

/-- The part of the `build_user_prompt` f-string template before the
interpolated next id. -/
def promptHead (today : String) : String :=
  "Today is " ++ today ++
  ". Below is the current cases.json for the SCOTUS Tracker.
Review each case and update it based on your knowledge of the 2025-26 Supreme Court term.

For each existing case:
1. Update \"status\" if it has changed (e.g., from \"Argued\" to \"Decided\", or \"Pending\" to \"Argued\")
2. Update \"statusDetail\" with the latest information
3. Update \"background\" if there are significant new developments
4. Update \"firstOrder\" and \"secondOrder\" effects if the case has been decided or if new analysis is warranted
5. Update \"urgency\" if circumstances have changed
6. Add new sources if relevant

Also: if there are NEW major cases this term involving agency independence, executive
authority, or separation of powers that are NOT already tracked, add them with a new
unique id (starting from "

/-- The part of the template after the interpolated next id. -/
def promptTail (today : String) (term : Json) (cur : Json) : String :=
  ").

Valid statuses: \"Argued\", \"Argument Scheduled\", \"Pending\", \"Re-argument Scheduled\", \"Decided\"
Valid urgency levels: \"high\", \"medium\", \"low\"
Valid categories: \"Agency Independence\", \"Executive Authority\", \"Separation of Powers\"

Return the complete updated JSON object with this exact structure:
\x7b
  \"lastUpdated\": \"" ++ today ++ "\",
  \"term\": \"" ++ pyStr term ++ "\",
  \"cases\": [ ... all cases with the same fields ... ]
\x7d

Current data:
" ++ dumpsPrompt cur ++ "

Return ONLY the updated JSON. If nothing has changed, return the data as-is with
today's date as lastUpdated."

/-- The user prompt of `build_user_prompt`, rendered from its f-string
template once the three interpolated values are known: the next-id number,
the term label and the `indent=2` serialization of the current dataset. -/
def promptText (today : String) (nid : Int) (term : Json) (cur : Json) :
    String :=
  promptHead today ++ intStr nid ++ promptTail today term cur

/-- `build_user_prompt(current_data)`: pure rendering of the instruction
string; `none` when evaluating an interpolated expression raises
(`current_data['cases']` missing, or `max` over malformed ids). -/
def buildUserPrompt (currentData : Json) (today : String) : Option String := do
  let casesVal ← pyGetItem currentData "cases"
  let nid ← nextIdNum casesVal
  let term ← pyDictGetD currentData "term" (.str "OCT 2025")
  some (promptText today nid term currentData)

/-- An observable event of a run: the storage read, the research-client
call, the storage write, a stdout line, a stderr line. -/
inductive Event where
  | readStore : Event
  | apiCall : String → Event
  | writeStore : String → Event
  | out : String → Event
  | err : String → Event
deriving DecidableEq, Repr

/-- The twelve required fields of a case record, in the order the script
lists them. -/
def requiredFields : List String :=
  ["id", "name", "docket", "status", "statusDetail", "category",
   "urgency", "question", "background", "firstOrder", "secondOrder",
   "sources"]

/-- `[f for f in required if f not in case]`; `none` when `f in case`
raises `TypeError` (the record is not a dict, a string or a list). -/
def missingOf (case : Json) : Option (List String) :=
  requiredFields.foldr
    (fun f acc => do
      let b ← pyContains f case
      let l ← acc
      some (if b then l else f :: l))
    (some [])

/-- Python `raw[:500]`: the first 500 characters. -/
def pySlice500 (s : String) : String := ⟨s.data.take 500⟩

/-- The name a shape error reports: `case.get('name', '?')` rendered by
the f-string; `none` when the record has no `.get` (not a dict). -/
def caseName (case : Json) : Option String :=
  (pyDictGetD case "name" (.str "?")).map pyStr

/-- The validation loop over the candidate's case records: `none` for a
raised exception, `some (some msg)` for the first record with missing
fields (with its error line), `some none` when every record passes. -/
def checkCasesLoop : JArr → Option (Option String)
  | .nil => some none
  | .cons c rest => do
    let miss ← missingOf c
    if miss.isEmpty then checkCasesLoop rest
    else do
      let nm ← caseName c
      some (some ("ERROR: Case '" ++ nm ++ "' missing fields: " ++
        reprStrList miss))

/-- The top-level shape check
`if "cases" not in updated_data or not isinstance(updated_data["cases"], list)`:
`none` for a raised exception (`in` on a number, or subscribing a string /
list that passed the `in` test), `some none` for the error path,
`some (some (fields, cases))` when the candidate is a dict with a list of
cases. -/
def topCheck (updated : Json) : Option (Option (JObj × JArr)) :=
  match updated with
  | .obj gs =>
    (match JObj.lookup "cases" gs with
     | none => some none
     | some (.arr cs) => some (some (gs, cs))
     | some _ => some none)
  | .str s =>
    if listContainsSub "cases".data s.data then none else some none
  | .arr xs =>
    if arrContainsStr "cases" xs then none else some none
  | _ => none

/-- Is the value usable as a Python dict key?  (lists and dicts are
unhashable). -/
def isHashable : Json → Bool
  | .arr _ => false
  | .obj _ => false
  | _ => true

/-- `d[k] = v` on a dict keyed by Python values: Python keeps the original
key object and position on reassignment (keys matching by `==`). -/
def assocSet : List (Json × Json) → Json → Json → List (Json × Json)
  | [], k, v => [(k, v)]
  | (k', v') :: rest, k, v =>
    if pyEq k' k then (k', v) :: rest else (k', v') :: assocSet rest k v

/-- `d.get(k)` on a dict keyed by Python values. -/
def assocGet : List (Json × Json) → Json → Option Json
  | [], _ => none
  | (k', v') :: rest, k => if pyEq k' k then some v' else assocGet rest k

/-- Python iteration over a value: a list yields its elements, a string
its characters, a dict its keys; anything else raises `TypeError`. -/
def pyIterate : Json → Option JArr
  | .arr xs => some xs
  | .str s => some (JArr.ofList (s.data.map (fun c => .str (String.singleton c))))
  | .obj fs => some (JArr.ofList ((JObj.toList fs).map (fun kv => .str kv.1)))
  | _ => none

/-- `old_ids = {c["id"]: c for c in ...}`: forward iteration with dict
assignment; `none` when `c["id"]` raises or an id is unhashable. -/
def buildOldIds (acc : List (Json × Json)) : JArr → Option (List (Json × Json))
  | .nil => some acc
  | .cons c rest => do
    let idv ← pyGetItem c "id"
    if isHashable idv then buildOldIds (assocSet acc idv c) rest else none

/-- Python `!=` where either operand may be `None` (a `.get` miss):
`None != None` is false, `None` differs from every JSON value, and two
values compare by `==`. -/
def pyNeN : Option Json → Option Json → Bool
  | some a, some b => !pyEq a b
  | none, none => false
  | _, _ => true

/-- The change-log loop (lines 126-132): for each candidate record, print
a NEW / STATUS CHANGE / UPDATED line or nothing; the produced stdout
events, with `none` when a lookup inside the loop raises (the events
printed before the raise are kept). -/
def logLoop (oldIds : List (Json × Json)) : JArr → List Event × Option Unit
  | .nil => ([], some ())
  | .cons c rest =>
    match pyGetItem c "id" with
    | none => ([], none)
    | some idv =>
      if isHashable idv then
        match assocGet oldIds idv with
        | none =>
          (match pyGetItem c "name" with
           | none => ([], none)
           | some nm =>
             let (evs, r) := logLoop oldIds rest
             (.out ("  NEW: " ++ pyStr nm) :: evs, r))
        | some old =>
          if pyNeN (pyDictGet old "status") (pyDictGet c "status") then
            (match pyGetItem c "name", pyGetItem old "status",
                pyGetItem c "status" with
             | some nm, some osv, some csv =>
               let (evs, r) := logLoop oldIds rest
               (.out ("  STATUS CHANGE: " ++ pyStr nm ++ ": " ++
                 pyStr osv ++ " -> " ++ pyStr csv) :: evs, r)
             | _, _, _ => ([], none))
          else if pyEq old c then logLoop oldIds rest
          else
            (match pyGetItem c "name" with
             | none => ([], none)
             | some nm =>
               let (evs, r) := logLoop oldIds rest
               (.out ("  UPDATED: " ++ pyStr nm) :: evs, r))
      else ([], none)

/-- One pass of the change-log loop body (lines 126-132) as a pure
classification of a candidate record against the old-ids dict: `none`
when no line is printed, otherwise the printed stdout event.  Partial
lookups are totalized with `.null` placeholders, which are reached only
on records where the loop itself would raise. -/
def changeLine (oldIds : List (Json × Json)) (c : Json) : Option Event :=
  match assocGet oldIds ((pyGetItem c "id").getD .null) with
  | none => some (.out ("  NEW: " ++ pyStr ((pyGetItem c "name").getD .null)))
  | some old =>
    if pyNeN (pyDictGet old "status") (pyDictGet c "status") then
      some (.out ("  STATUS CHANGE: " ++ pyStr ((pyGetItem c "name").getD .null)
        ++ ": " ++ pyStr ((pyGetItem old "status").getD .null) ++ " -> "
        ++ pyStr ((pyGetItem c "status").getD .null)))
    else if pyEq old c then none
    else some (.out ("  UPDATED: " ++ pyStr ((pyGetItem c "name").getD .null)))

/-- Lines 107-133: compare old and candidate with `lastUpdated` excluded
via their `json.dumps(..., sort_keys=True)` serializations; on equality
print the notice and write the old dataset with `lastUpdated` refreshed;
otherwise write the candidate verbatim, print the count and the per-record
change log. -/
def reconcile (curFs updFs : JObj) (cs : JArr) (today : String) :
    List Event × Option Bool :=
  let oldC := JObj.stripLU curFs
  let newC := JObj.stripLU updFs
  if dumps (.obj oldC) = dumps (.obj newC) then
    ([.out "No changes detected.",
      .writeStore (dumpsPersist (.obj (JObj.set curFs "lastUpdated" (.str today))) ++ "\n")],
     some true)
  else
    let wEv := Event.writeStore (dumpsPersist (.obj updFs) ++ "\n")
    let uEv := Event.out ("Updated " ++ toString cs.length ++ " cases.")
    match pyIterate ((JObj.lookup "cases" curFs).getD (.arr .nil)) with
    | none => ([wEv, uEv], none)
    | some oldCases =>
      match buildOldIds [] oldCases with
      | none => ([wEv, uEv], none)
      | some oldIds =>
        let (levs, r) := logLoop oldIds cs
        (wEv :: uEv :: levs, r.map (fun _ => true))

/-- `update_cases()`: the whole run after the credential check, as a pure
function of the parsed stored dataset, the research client's response text
and today's date.  Returns the event trace and `some b` for `return b`,
`none` for an uncaught exception (whose partial trace is kept). -/
def updateCases (currentData : Json) (responseText : String) (today : String) :
    List Event × Option Bool :=
  match buildUserPrompt currentData today with
  | none => ([.readStore], none)
  | some prompt =>
    let ev := [Event.readStore, Event.apiCall prompt]
    match pyNormalize responseText with
    | none => (ev, none)
    | some raw =>
      match jsonParse raw with
      | .error e =>
        (ev ++ [.err ("ERROR: Claude returned invalid JSON: " ++ e),
                .err ("Raw response:\n" ++ pySlice500 raw)], some false)
      | .ok updated =>
        match topCheck updated with
        | none => (ev, none)
        | some none =>
          (ev ++ [.err "ERROR: Response missing 'cases' array"], some false)
        | some (some (updFs, cs)) =>
          match checkCasesLoop cs with
          | none => (ev, none)
          | some (some msg) => (ev ++ [.err msg], some false)
          | some none =>
            match currentData with
            | .obj curFs =>
              let (revs, r) := reconcile curFs updFs cs today
              (ev ++ revs, r)
            | _ => (ev, none)

/-- The `__main__` block: exit immediately with the error line and code 1
when `ANTHROPIC_API_KEY` is unset or empty (Python truthiness), else run
`update_cases` and exit 0 on `True`, 1 on `False`; `none` when the run
raises. -/
def mainRun (apiKey : Option String) (currentData : Json)
    (responseText : String) (today : String) : List Event × Option Nat :=
  if apiKey.getD "" = "" then
    ([.err "ERROR: ANTHROPIC_API_KEY not set"], some 1)
  else
    let (evs, r) := updateCases currentData responseText today
    (evs, r.map (fun success => if success then 0 else 1))

/-- Is the write trailing-newline terminated? -/
def endsWithNL (s : String) : Bool := s.data.getLast? = some '\n'

/-- Is this event a storage write? -/
def isWriteEv : Event → Bool
  | .writeStore _ => true
  | _ => false

/-- A full twelve-field case record for concrete scenarios. -/
def wCase (i : Int) (nm st : String) : Json :=
  .obj (JObj.ofList [("id", .num i), ("name", .str nm), ("docket", .str "23-1"),
    ("status", .str st), ("statusDetail", .str "d"),
    ("category", .str "Agency Independence"), ("urgency", .str "high"),
    ("question", .str "q"), ("background", .str "b"),
    ("firstOrder", .str "f"), ("secondOrder", .str "s"),
    ("sources", .arr (.cons (.str "u") .nil))])

/-- A stored dataset with an empty case list. -/
def wCurEmpty : Json :=
  .obj (JObj.ofList [("lastUpdated", .str "2025-01-01"), ("term", .str "T"),
    ("cases", .arr .nil)])

/-- A response equal to `wCurEmpty` up to `lastUpdated`. -/
def wRespNoChange : String :=
  "\x7b\"lastUpdated\": \"2025-10-12\", \"term\": \"T\", \"cases\": []\x7d"

/-- A stored dataset with one full case record. -/
def wCurOne : Json :=
  .obj (JObj.ofList [("lastUpdated", .str "2025-01-01"), ("term", .str "T"),
    ("cases", .arr (.cons (wCase 1 "A v. B" "Argued") .nil))])

/-- A candidate that changes the case's status. -/
def wCandStatus : Json :=
  .obj (JObj.ofList [("lastUpdated", .str "2025-10-12"), ("term", .str "T"),
    ("cases", .arr (.cons (wCase 1 "A v. B" "Decided") .nil))])

/-- The response text carrying `wCandStatus`, wrapped in a code fence. -/
def wRespStatus : String := "```json\n" ++ dumpsPersist wCandStatus ++ "\n```"

/-- A stored dataset whose single old record lacks `status` (and the other
required fields): well-formed enough for the prompt and the old-ids dict,
but the change-log loop's `old['status']` raises after the file write. -/
def c8Cur : Json :=
  .obj (JObj.ofList [("lastUpdated", .str "2025-01-01"), ("term", .str "T"),
    ("cases", .arr (.cons (.obj (.cons "id" (.num 1) .nil)) .nil))])

/-- A continuation that cannot extend a numeric token: its first character
(if any) is not a digit.  Every separator the serializer emits after a
value (comma, closing bracket, closing brace, end of input) satisfies it. -/
def goodHead : List Char → Bool
  | [] => true
  | c :: _ => !isDigitC c

/-- Decoder for one `escCharA true`-encoded code unit (proof tool for the
injectivity of the serializer): a short backslash escape, a `\uXXXX` unit,
or a literal character, as a code-point value. -/
def unescU : List Char → Option (Nat × List Char)
  | [] => none
  | c :: r =>
    if c.toNat ≠ 92 then some (c.toNat, r)
    else
      match r with
      | [] => none
      | e :: r' =>
        if e = 'u' then
          match r' with
          | h1 :: h2 :: h3 :: h4 :: r'' =>
            (match hexVal h1, hexVal h2, hexVal h3, hexVal h4 with
             | some a, some b, some cc, some dd =>
               some (a * 4096 + b * 256 + cc * 16 + dd, r'')
             | _, _, _, _ => none)
          | _ => none
        else if e = '"' then some (34, r')
        else if e = '\\' then some (92, r')
        else if e = 'n' then some (10, r')
        else if e = 'r' then some (13, r')
        else if e = 't' then some (9, r')
        else if e = 'b' then some (8, r')
        else if e = 'f' then some (12, r')
        else if e = '/' then some (47, r')
        else none

/-- Decoder for one `escCharA true`-encoded character: one code unit, or a
surrogate pair combined into one character. -/
def unescFirst (l : List Char) : Option (Char × List Char) :=
  match unescU l with
  | none => none
  | some (n, r) =>
    if 55296 ≤ n ∧ n < 56320 then
      match unescU r with
      | none => none
      | some (m, r') =>
        if 56320 ≤ m ∧ m < 57344 then
          some (Char.ofNat (65536 + (n - 55296) * 1024 + (m - 56320)), r')
        else none
    else some (Char.ofNat n, r)

/-- Pairwise distinct keys. -/
def nodupKeys : JObj → Bool
  | .nil => true
  | .cons k _ fs => !fs.hasKey k && nodupKeys fs

mutual
/-- Well-formedness of a parsed document: every object has pairwise
distinct keys, as every value produced by `json.loads` does. -/
def wfJ : Json → Bool
  | .null => true
  | .bool _ => true
  | .num _ => true
  | .str _ => true
  | .arr xs => wfA xs
  | .obj fs => nodupKeys fs && wfO fs
/-- Well-formedness of every element. -/
def wfA : JArr → Bool
  | .nil => true
  | .cons x xs => wfJ x && wfA xs
/-- Well-formedness of every field value. -/
def wfO : JObj → Bool
  | .nil => true
  | .cons _ v fs => wfJ v && wfO fs
end

/-- Classification of a serialized value by its first character. -/
def headTag (c : Char) : Nat :=
  if c = 'n' then 0 else if c = 't' then 1 else if c = 'f' then 2
  else if c = '"' then 4 else if c = '[' then 5 else if c = lbrace then 6
  else 3

/-- Classification of a value by its constructor (booleans split by
value, mirroring their distinct serializations). -/
def vTag : Json → Nat
  | .null => 0
  | .bool true => 1
  | .bool false => 2
  | .num _ => 3
  | .str _ => 4
  | .arr _ => 5
  | .obj _ => 6

theorem dropWhile_pySpace_idem (l : List Char) :
    (l.dropWhile isPySpace).dropWhile isPySpace = l.dropWhile isPySpace := by
  induction l with
  | nil => simp
  | cons c rest ih =>
    by_cases h : isPySpace c = true
    · simp [List.dropWhile, h, ih]
    · simp only [Bool.not_eq_true] at h
      simp [List.dropWhile, h]

theorem dropWhile_head_false {p : Char → Bool} (l : List Char) (c : Char)
    (h : (l.dropWhile p).head? = some c) : p c = false := by
  induction l with
  | nil => simp at h
  | cons d rest ih =>
    by_cases hd : p d = true
    · simp [List.dropWhile, hd] at h
      exact ih h
    · simp [List.dropWhile, hd] at h
      rw [← h]
      simpa using hd

theorem dropWhile_of_head_false {p : Char → Bool} (l : List Char)
    (h : ∀ c, l.head? = some c → p c = false) : l.dropWhile p = l := by
  cases l with
  | nil => rfl
  | cons c rest =>
    have hc := h c (by simp)
    simp [List.dropWhile, hc]

theorem rstrip_prefix (A : List Char) :
    ∃ suf, A = (A.reverse.dropWhile isPySpace).reverse ++ suf := by
  refine ⟨(A.reverse.takeWhile isPySpace).reverse, ?_⟩
  have h := List.takeWhile_append_dropWhile (p := isPySpace) (l := A.reverse)
  calc A = A.reverse.reverse := by simp
    _ = (A.reverse.takeWhile isPySpace ++ A.reverse.dropWhile isPySpace).reverse := by
        rw [h]
    _ = (A.reverse.dropWhile isPySpace).reverse ++
          (A.reverse.takeWhile isPySpace).reverse := by
        rw [List.reverse_append]

theorem pstrip_idem (l : List Char) : pstrip (pstrip l) = pstrip l := by
  unfold pstrip
  set A := l.dropWhile isPySpace with hA
  set R := (A.reverse.dropWhile isPySpace).reverse with hR
  have hstep1 : R.dropWhile isPySpace = R := by
    apply dropWhile_of_head_false
    intro c hc
    rcases hr : R with _ | ⟨d, rr⟩
    · rw [hr] at hc; simp at hc
    · rw [hr] at hc
      simp at hc
      obtain ⟨suf, hsuf⟩ := rstrip_prefix A
      rw [← hR, hr] at hsuf
      have hhead : (l.dropWhile isPySpace).head? = some d := by
        rw [← hA, hsuf]; simp
      have hd := dropWhile_head_false l d hhead
      rw [hc] at hd
      exact hd
  rw [hstep1]
  have hrev : R.reverse = A.reverse.dropWhile isPySpace := by
    rw [hR]; simp
  rw [hrev, dropWhile_pySpace_idem, ← hrev]
  simp

theorem pyNormalize_some_form (x : String) (y : String)
    (h : pyNormalize x = some y) : ∃ l, y = ⟨pstrip l⟩ := by
  unfold pyNormalize at h
  simp only [Option.map_eq_some'] at h
  obtain ⟨r1, _, hy⟩ := h
  exact ⟨_, hy.symm⟩

/-- C10: the Response Normalizer is claimed total, but on the input that is
exactly the fence marker with no newline the script raises `IndexError`
(`"```".split("\n", 1)` yields a one-element list and `[1]` is out of
range), modelled as `none`. -/
theorem c10_normalizer_crash_on_lone_fence : pyNormalize "```" = none := by
  decide

/-- C5 counterexample: the Response Normalizer is not idempotent.  On
`"abc``````"` (three trailing fence markers' worth of backticks) one pass
strips only the last marker, leaving `"abc```"`, and a second pass strips
again, so `Normalizer (Normalizer x) ≠ Normalizer x`. -/
theorem c5_counterexample :
    (pyNormalize "abc``````").bind pyNormalize ≠ pyNormalize "abc``````" := by
  decide

/-- C5 amended: the Response Normalizer is idempotent on every input on
which it succeeds and whose output neither starts nor ends with the fence
marker (in particular on any text free of fence markers); a successful
output that still carries a leading or trailing marker is normalized
further by a second pass. -/
theorem c5_normalizer_idempotent (x y : String)
    (hx : pyNormalize x = some y)
    (hpre : fence.isPrefixOf y.data = false)
    (hsuf : fence.isSuffixOf y.data = false) :
    pyNormalize y = some y := by
  obtain ⟨l, rfl⟩ := pyNormalize_some_form x y hx
  have hpre2 : fence.isPrefixOf (pstrip l) = false := hpre
  have hsuf2 : fence.isSuffixOf (pstrip l) = false := hsuf
  unfold pyNormalize
  rw [show pstrip (String.mk (pstrip l)).data = pstrip l from pstrip_idem l]
  have hsuf3 : ¬ fence <:+ pstrip l := by
    rw [← List.isSuffixOf_iff_suffix]
    simp [hsuf2]
  simp [hpre2, hsuf2, pstrip_idem, hsuf3]

/-- C5 witness: the amended idempotence at a concrete fence-free input. -/
theorem c5_witness : pyNormalize "hello" = some "hello" :=
  c5_normalizer_idempotent "hello" "hello" (by decide) (by decide) (by decide)

theorem foldl_max_mem_or (js : List Int) : ∀ i, js.foldl max i = i ∨ js.foldl max i ∈ js := by
  induction js with
  | nil => intro i; simp
  | cons j js ih =>
    intro i
    rcases ih (max i j) with h | h
    · rw [List.foldl_cons, h]
      rcases max_choice i j with hm | hm
      · left; exact hm
      · right; simp [hm]
    · right; rw [List.foldl_cons]; simp [h]

theorem init_le_foldl_max (js : List Int) : ∀ i, i ≤ js.foldl max i := by
  induction js with
  | nil => intro i; simp
  | cons j js ih =>
    intro i
    rw [List.foldl_cons]
    exact le_trans (le_max_left i j) (ih (max i j))

theorem mem_le_foldl_max (js : List Int) : ∀ i x, x ∈ js → x ≤ js.foldl max i := by
  induction js with
  | nil => intro i x h; simp at h
  | cons j js ih =>
    intro i x h
    rw [List.foldl_cons]
    rcases List.mem_cons.mp h with rfl | h'
    · exact le_trans (le_max_right i x) (init_le_foldl_max js (max i x))
    · exact ih (max i j) x h'

theorem idsOf_ofList : ∀ (cases : List Json) (ids : List Int),
    cases.map (fun c => pyGetItem c "id") = ids.map (fun i => some (.num i)) →
    idsOf (JArr.ofList cases) = some ids := by
  intro cases
  induction cases with
  | nil =>
    intro ids h
    cases ids with
    | nil => simp [JArr.ofList, idsOf]
    | cons i is => simp at h
  | cons c cs ih =>
    intro ids h
    cases ids with
    | nil => simp at h
    | cons i is =>
      simp only [List.map, List.cons.injEq] at h
      simp [JArr.ofList, idsOf, h.1, pyIntVal, ih is h.2]

theorem pyGetItem_obj (j : Json) (k : String) (v : Json)
    (h : pyGetItem j k = some v) :
    ∃ fs, j = .obj fs ∧ JObj.lookup k fs = some v := by
  cases j <;> simp [pyGetItem] at h
  exact ⟨_, rfl, h⟩

/-- C6: the next available id the Prompt Builder computes and embeds in the
instruction string is the maximum existing case id plus one, or 1 when the
case list is empty; in particular ids 3, 7, 5 give 8 and the empty list
gives 1, and the rendered id sits inside the produced prompt. -/
theorem c6_next_id :
    (∀ (cases : List Json) (ids : List Int),
        cases.map (fun c => pyGetItem c "id") =
          ids.map (fun i => some (.num i)) →
        ids ≠ [] →
        ∃ M, M ∈ ids ∧ (∀ x ∈ ids, x ≤ M) ∧
          nextIdNum (.arr (JArr.ofList cases)) = some (M + 1)) ∧
    nextIdNum (.arr (JArr.ofList
      [.obj (.cons "id" (.num 3) .nil), .obj (.cons "id" (.num 7) .nil),
       .obj (.cons "id" (.num 5) .nil)])) = some 8 ∧
    nextIdNum (.arr .nil) = some 1 ∧
    (∀ (cur : Json) (today : String) (casesVal : Json) (nid : Int),
        pyGetItem cur "cases" = some casesVal →
        nextIdNum casesVal = some nid →
        ∃ pre post, buildUserPrompt cur today =
          some (pre ++ intStr nid ++ post)) := by
  refine ⟨?_, by decide, by decide, ?_⟩
  · intro cases ids hmap hne
    have hids := idsOf_ofList cases ids hmap
    cases ids with
    | nil => exact absurd rfl hne
    | cons i is =>
      refine ⟨is.foldl max i, ?_, ?_, ?_⟩
      · rcases foldl_max_mem_or is i with h | h
        · rw [h]; exact List.mem_cons_self _ _
        · exact List.mem_cons_of_mem _ h
      · intro x hx
        rcases List.mem_cons.mp hx with rfl | hx'
        · exact init_le_foldl_max is x
        · exact mem_le_foldl_max is i x hx'
      · have hcne : cases ≠ [] := by
          intro hc
          rw [hc] at hmap
          simp at hmap
        have htr : pyTruthy (.arr (JArr.ofList cases)) = true := by
          cases cases with
          | nil => exact absurd rfl hcne
          | cons c cs => simp [JArr.ofList, pyTruthy]
        simp [nextIdNum, htr, hids]
  · intro cur today casesVal nid h1 h2
    obtain ⟨fs, rfl, _⟩ := pyGetItem_obj cur "cases" casesVal h1
    refine ⟨promptHead today,
      promptTail today ((JObj.lookup "term" fs).getD (.str "OCT 2025"))
        (.obj fs), ?_⟩
    simp [buildUserPrompt, h1, h2, pyDictGetD, promptText, Option.bind]

/-- C6 witness: the general statement applied to the concrete id set
3, 7, 5 and the prompt-containment part applied to a dataset carrying it. -/
theorem c6_witness :
    (∃ M, M ∈ [(3 : Int), 7, 5] ∧ (∀ x ∈ [(3 : Int), 7, 5], x ≤ M) ∧
      nextIdNum (.arr (JArr.ofList
        [.obj (.cons "id" (.num 3) .nil), .obj (.cons "id" (.num 7) .nil),
         .obj (.cons "id" (.num 5) .nil)])) = some (M + 1)) ∧
    (∃ pre post,
      buildUserPrompt (.obj (.cons "cases" (.arr .nil) .nil)) "2025-10-12" =
        some (pre ++ intStr 1 ++ post)) :=
  ⟨c6_next_id.1
      [.obj (.cons "id" (.num 3) .nil), .obj (.cons "id" (.num 7) .nil),
       .obj (.cons "id" (.num 5) .nil)]
      [3, 7, 5] (by decide) (by decide),
   c6_next_id.2.2.2 (.obj (.cons "cases" (.arr .nil) .nil)) "2025-10-12"
      (.arr .nil) 1 (by decide) (by decide)⟩

/-- C7: the process exit codes.  A missing or empty `ANTHROPIC_API_KEY` is
reported and exits 1 with no storage read, no API call, and no write (the
trace holds nothing but the error line); otherwise the run's `True` maps
to exit 0 (including the no-op case) and `False` (validation failure or
unparseable response) to exit 1. -/
theorem c7_exit_codes :
    (∀ (k : Option String) cd resp td, k.getD "" = "" →
        mainRun k cd resp td =
          ([.err "ERROR: ANTHROPIC_API_KEY not set"], some 1)) ∧
    (∀ (k : String) cd resp td evs, k ≠ "" →
        updateCases cd resp td = (evs, some true) →
        mainRun (some k) cd resp td = (evs, some 0)) ∧
    (∀ (k : String) cd resp td evs, k ≠ "" →
        updateCases cd resp td = (evs, some false) →
        mainRun (some k) cd resp td = (evs, some 1)) ∧
    (∀ (k : Option String) cd resp td e, k.getD "" = "" →
        e ∈ (mainRun k cd resp td).1 →
        e = .err "ERROR: ANTHROPIC_API_KEY not set") := by
  refine ⟨?_, ?_, ?_, ?_⟩
  · intro k cd resp td hk
    simp [mainRun, hk]
  · intro k cd resp td evs hk hu
    simp [mainRun, hk, hu]
  · intro k cd resp td evs hk hu
    simp [mainRun, hk, hu]
  · intro k cd resp td e hk he
    simp [mainRun, hk] at he
    exact he

/-- C7 witness: the exit-code contract at concrete runs — absent and empty
credentials exit 1 without I/O events, a successful no-op run exits 0, and
a validation-failing run exits 1. -/
theorem c7_witness :
    mainRun none wCurEmpty wRespNoChange "2025-10-12" =
      ([.err "ERROR: ANTHROPIC_API_KEY not set"], some 1) ∧
    mainRun (some "") wCurEmpty wRespNoChange "2025-10-12" =
      ([.err "ERROR: ANTHROPIC_API_KEY not set"], some 1) ∧
    (mainRun (some "k") wCurEmpty wRespNoChange "2025-10-12").2 = some 0 ∧
    (mainRun (some "k") wCurEmpty "[]" "2025-10-12").2 = some 1 := by
  refine ⟨c7_exit_codes.1 none _ _ _ (by decide),
    c7_exit_codes.1 (some "") _ _ _ (by decide), ?_, ?_⟩
  · have h2 : (updateCases wCurEmpty wRespNoChange "2025-10-12").2 =
        some true := by decide
    have hu : updateCases wCurEmpty wRespNoChange "2025-10-12" =
        ((updateCases wCurEmpty wRespNoChange "2025-10-12").1, some true) := by
      rw [← h2]
    have h := c7_exit_codes.2.1 "k" wCurEmpty wRespNoChange "2025-10-12"
      (updateCases wCurEmpty wRespNoChange "2025-10-12").1 (by decide) hu
    rw [h]
  · have h2 : (updateCases wCurEmpty "[]" "2025-10-12").2 = some false := by
      decide
    have hu : updateCases wCurEmpty "[]" "2025-10-12" =
        ((updateCases wCurEmpty "[]" "2025-10-12").1, some false) := by
      rw [← h2]
    have h := c7_exit_codes.2.2.1 "k" wCurEmpty "[]" "2025-10-12"
      (updateCases wCurEmpty "[]" "2025-10-12").1 (by decide) hu
    rw [h]

/-- C4: when the normalized response text is not valid JSON, the run logs
the parse error and a 500-character prefix of the (normalized) raw text to
stderr, performs no write, and the process exits 1. -/
theorem c4_parse_error (k : String) (cd : Json) (resp td prompt raw e : String)
    (hk : k ≠ "")
    (hp : buildUserPrompt cd td = some prompt)
    (hn : pyNormalize resp = some raw)
    (he : jsonParse raw = .error e) :
    mainRun (some k) cd resp td =
      ([.readStore, .apiCall prompt,
        .err ("ERROR: Claude returned invalid JSON: " ++ e),
        .err ("Raw response:\n" ++ pySlice500 raw)], some 1) ∧
    (∀ t, Event.writeStore t ∉ (mainRun (some k) cd resp td).1) := by
  have hu : updateCases cd resp td =
      ([.readStore, .apiCall prompt,
        .err ("ERROR: Claude returned invalid JSON: " ++ e),
        .err ("Raw response:\n" ++ pySlice500 raw)], some false) := by
    simp [updateCases, hp, hn, he]
  constructor
  · simp [mainRun, hk, hu]
  · intro t ht
    simp [mainRun, hk, hu] at ht

/-- C4 witness: a concrete unparseable response. -/
theorem c4_witness :
    mainRun (some "k") wCurEmpty "not json" "2025-10-12" =
      ([.readStore,
        .apiCall ((buildUserPrompt wCurEmpty "2025-10-12").getD ""),
        .err ("ERROR: Claude returned invalid JSON: Expecting value"),
        .err ("Raw response:\nnot json")], some 1) :=
  (c4_parse_error "k" wCurEmpty "not json" "2025-10-12"
    ((buildUserPrompt wCurEmpty "2025-10-12").getD "") "not json"
    "Expecting value" (by decide) rfl (by decide) (by decide)).1

theorem checkCasesLoop_append (cs1 : List Json) (c : Json) (cs2 : List Json)
    (m : List String) (nm : String)
    (h1 : checkCasesLoop (JArr.ofList cs1) = some none)
    (hm : missingOf c = some m) (hne : m ≠ []) (hn : caseName c = some nm) :
    checkCasesLoop (JArr.ofList (cs1 ++ c :: cs2)) =
      some (some ("ERROR: Case '" ++ nm ++ "' missing fields: " ++
        reprStrList m)) := by
  induction cs1 with
  | nil =>
    have hme : m.isEmpty = false := by
      cases m with
      | nil => exact absurd rfl hne
      | cons a l => rfl
    simp [JArr.ofList, checkCasesLoop, hm, hme, hn]
    exact fun h => absurd h hne
  | cons d ds ih =>
    rcases hmd : missingOf d with _ | md
    · rw [JArr.ofList, checkCasesLoop] at h1
      simp [hmd] at h1
    · by_cases he : md.isEmpty = true
      · rw [JArr.ofList, checkCasesLoop] at h1
        simp only [hmd, Option.bind_eq_bind, Option.some_bind, he, if_true] at h1
        have hrec := ih h1
        simp only [List.cons_append, JArr.ofList, checkCasesLoop, hmd,
          Option.bind_eq_bind, Option.some_bind, he, if_true]
        exact hrec
      · have hmdne : ¬ md = [] := fun h => he (by simp [h])
        rw [JArr.ofList, checkCasesLoop] at h1
        rcases hnd : caseName d with _ | nmd
        · simp [hmd, hnd] at h1
          exact absurd h1.1 hmdne
        · simp [hmd, hnd, if_neg hmdne] at h1

/-- C3: a parsed candidate failing shape validation — no `cases` key, a
non-list `cases` value, or a record missing required fields — makes the
run print the matching error (for a bad record: its `name` or the `?`
placeholder, plus the missing field names), write nothing, and exit 1. -/
theorem c3_shape_validation :
    (∀ (k : String) (cd : Json) (resp td prompt raw : String) (gs : JObj),
        k ≠ "" →
        buildUserPrompt cd td = some prompt →
        pyNormalize resp = some raw →
        jsonParse raw = .ok (.obj gs) →
        JObj.lookup "cases" gs = none →
        mainRun (some k) cd resp td =
          ([.readStore, .apiCall prompt,
            .err "ERROR: Response missing 'cases' array"], some 1)) ∧
    (∀ (k : String) (cd : Json) (resp td prompt raw : String) (gs : JObj)
        (v : Json),
        k ≠ "" →
        buildUserPrompt cd td = some prompt →
        pyNormalize resp = some raw →
        jsonParse raw = .ok (.obj gs) →
        JObj.lookup "cases" gs = some v →
        (∀ xs, v ≠ .arr xs) →
        mainRun (some k) cd resp td =
          ([.readStore, .apiCall prompt,
            .err "ERROR: Response missing 'cases' array"], some 1)) ∧
    (∀ (k : String) (cd : Json) (resp td prompt raw : String) (gs : JObj)
        (cs1 cs2 : List Json) (c : Json) (fsc : JObj) (m : List String),
        k ≠ "" →
        buildUserPrompt cd td = some prompt →
        pyNormalize resp = some raw →
        jsonParse raw = .ok (.obj gs) →
        JObj.lookup "cases" gs = some (.arr (JArr.ofList (cs1 ++ c :: cs2))) →
        checkCasesLoop (JArr.ofList cs1) = some none →
        c = .obj fsc →
        missingOf c = some m →
        m ≠ [] →
        mainRun (some k) cd resp td =
          ([.readStore, .apiCall prompt,
            .err ("ERROR: Case '" ++
              pyStr ((JObj.lookup "name" fsc).getD (.str "?")) ++
              "' missing fields: " ++ reprStrList m)], some 1)) := by
  refine ⟨?_, ?_, ?_⟩
  · intro k cd resp td prompt raw gs hk hp hn he hlk
    simp [mainRun, hk, updateCases, hp, hn, he, topCheck, hlk]
  · intro k cd resp td prompt raw gs v hk hp hn he hlk hv
    have htc : topCheck (.obj gs) = some none := by
      cases v <;> simp [topCheck, hlk]
      exact absurd rfl (hv _)
    simp [mainRun, hk, updateCases, hp, hn, he, htc]
  · intro k cd resp td prompt raw gs cs1 cs2 c fsc m hk hp hn he hlk h1 hc hm
      hmne
    have hnm : caseName c = some (pyStr ((JObj.lookup "name" fsc).getD (.str "?"))) := by
      rw [hc]
      simp [caseName, pyDictGetD]
    have hloop := checkCasesLoop_append cs1 c cs2 m _ h1 hm hmne hnm
    simp [mainRun, hk, updateCases, hp, hn, he, topCheck, hlk, hloop]

/-- C3 witness: the three validation failures at concrete responses — a
response without `cases`, one whose `cases` is not a list, and one whose
record carries only `id` (reported as `?` with the eleven missing
fields). -/
theorem c3_witness :
    mainRun (some "k") wCurEmpty "\x7b\"a\": 1\x7d" "2025-10-12" =
      ([.readStore, .apiCall ((buildUserPrompt wCurEmpty "2025-10-12").getD ""),
        .err "ERROR: Response missing 'cases' array"], some 1) ∧
    mainRun (some "k") wCurEmpty "\x7b\"cases\": 1\x7d" "2025-10-12" =
      ([.readStore, .apiCall ((buildUserPrompt wCurEmpty "2025-10-12").getD ""),
        .err "ERROR: Response missing 'cases' array"], some 1) ∧
    mainRun (some "k") wCurEmpty "\x7b\"cases\": [\x7b\"id\": 1\x7d]\x7d"
        "2025-10-12" =
      ([.readStore, .apiCall ((buildUserPrompt wCurEmpty "2025-10-12").getD ""),
        .err ("ERROR: Case '?' missing fields: " ++ reprStrList
          ["name", "docket", "status", "statusDetail", "category", "urgency",
           "question", "background", "firstOrder", "secondOrder", "sources"])],
       some 1) := by
  refine ⟨?_, ?_, ?_⟩
  · exact c3_shape_validation.1 "k" wCurEmpty _ "2025-10-12" _ "\x7b\"a\": 1\x7d"
      (.cons "a" (.num 1) .nil) (by decide) rfl (by decide) (by decide)
      (by decide)
  · exact c3_shape_validation.2.1 "k" wCurEmpty _ "2025-10-12" _
      "\x7b\"cases\": 1\x7d" (.cons "cases" (.num 1) .nil) (.num 1) (by decide)
      rfl (by decide) (by decide) (by decide) (by intro xs; simp)
  · have h := c3_shape_validation.2.2 "k" wCurEmpty
      "\x7b\"cases\": [\x7b\"id\": 1\x7d]\x7d" "2025-10-12"
      ((buildUserPrompt wCurEmpty "2025-10-12").getD "")
      "\x7b\"cases\": [\x7b\"id\": 1\x7d]\x7d"
      (.cons "cases" (.arr (.cons (.obj (.cons "id" (.num 1) .nil)) .nil)) .nil)
      [] [] (.obj (.cons "id" (.num 1) .nil)) (.cons "id" (.num 1) .nil)
      ["name", "docket", "status", "statusDetail", "category", "urgency",
       "question", "background", "firstOrder", "secondOrder", "sources"]
      (by decide) rfl (by decide) (by decide) (by decide) (by decide) rfl
      (by decide) (by decide)
    simpa using h

theorem lookup_set_self : ∀ (fs : JObj) (k : String) (v : Json),
    JObj.lookup k (JObj.set fs k v) = some v
  | .nil, k, v => by simp [JObj.set, JObj.lookup]
  | .cons k' v' rest, k, v => by
    by_cases h : k' = k
    · simp [JObj.set, h, JObj.lookup]
    · simp [JObj.set, h, JObj.lookup, lookup_set_self rest k v]

theorem lookup_set_other : ∀ (fs : JObj) (k : String) (v : Json) (key : String),
    key ≠ k → JObj.lookup key (JObj.set fs k v) = JObj.lookup key fs
  | .nil, k, v, key => fun hne => by
    have hke : ¬ k = key := fun h => hne h.symm
    simp [JObj.set, JObj.lookup, hke]
  | .cons k' v' rest, k, v, key => fun hne => by
    by_cases h : k' = k
    · subst h
      have hke : ¬ k' = key := fun h => hne h.symm
      simp [JObj.set, JObj.lookup, hke]
    · simp [JObj.set, h, JObj.lookup, lookup_set_other rest k v key hne]

theorem logLoop_out : ∀ (ids : List (Json × Json)) (cs : JArr) (e : Event),
    e ∈ (logLoop ids cs).1 → ∃ s, e = .out s
  | ids, .nil, e => by simp [logLoop]
  | ids, .cons c rest, e => by
    have ih := logLoop_out ids rest
    simp only [logLoop]
    split
    · simp
    · split
      · split
        · split
          · simp
          · intro hmem
            rcases List.mem_cons.mp hmem with rfl | hmem'
            · exact ⟨_, rfl⟩
            · exact ih e hmem'
        · split
          · split
            · intro hmem
              rcases List.mem_cons.mp hmem with rfl | hmem'
              · exact ⟨_, rfl⟩
              · exact ih e hmem'
            · simp
          · split
            · intro hmem
              exact ih e hmem
            · split
              · simp
              · intro hmem
                rcases List.mem_cons.mp hmem with rfl | hmem'
                · exact ⟨_, rfl⟩
                · exact ih e hmem'
      · simp

theorem endsWithNL_append_nl (s : String) : endsWithNL (s ++ "\n") = true := by
  have h : (s ++ "\n").data = s.data ++ ['\n'] := by
    simp [String.data_append]
  simp [endsWithNL, h]

theorem reconcile_props (curFs updFs : JObj) (cs : JArr) (td : String) :
    ((reconcile curFs updFs cs td).1.countP isWriteEv ≤ 1) ∧
    (∀ t, Event.writeStore t ∈ (reconcile curFs updFs cs td).1 →
        endsWithNL t = true) ∧
    (∀ m, Event.err m ∉ (reconcile curFs updFs cs td).1) ∧
    ((reconcile curFs updFs cs td).2 ≠ some false) := by
  by_cases hd : dumps (.obj (JObj.stripLU curFs)) =
      dumps (.obj (JObj.stripLU updFs))
  · refine ⟨?_, ?_, ?_, ?_⟩ <;> simp only [reconcile, if_pos hd]
    · simp [List.countP_cons, isWriteEv]
    · intro t ht
      simp at ht
      rcases ht with ⟨rfl⟩
      exact endsWithNL_append_nl _
    · intro m hm
      simp at hm
    · simp
  · rcases hiter : pyIterate ((JObj.lookup "cases" curFs).getD (.arr .nil))
        with _ | oldCases
    · refine ⟨?_, ?_, ?_, ?_⟩ <;> simp only [reconcile, if_neg hd, hiter]
      · simp [List.countP_cons, isWriteEv]
      · intro t ht
        simp at ht
        rcases ht with ⟨rfl⟩
        exact endsWithNL_append_nl _
      · intro m hm
        simp at hm
      · simp
    · rcases hb : buildOldIds [] oldCases with _ | oldIds
      · refine ⟨?_, ?_, ?_, ?_⟩ <;> simp only [reconcile, if_neg hd, hiter, hb]
        · simp [List.countP_cons, isWriteEv]
        · intro t ht
          simp at ht
          rcases ht with ⟨rfl⟩
          exact endsWithNL_append_nl _
        · intro m hm
          simp at hm
        · simp
      · have hall := logLoop_out oldIds cs
        refine ⟨?_, ?_, ?_, ?_⟩ <;> simp only [reconcile, if_neg hd, hiter, hb]
        · have hz : (logLoop oldIds cs).1.countP isWriteEv = 0 := by
            rw [List.countP_eq_zero]
            intro e he
            obtain ⟨s, rfl⟩ := hall e he
            simp [isWriteEv]
          simp [List.countP_cons, isWriteEv, hz]
        · intro t ht
          rcases List.mem_cons.mp ht with heq | ht'
          · rcases heq with ⟨rfl⟩
            exact endsWithNL_append_nl _
          · rcases List.mem_cons.mp ht' with heq | ht''
            · exact absurd heq (by simp)
            · obtain ⟨s, hs⟩ := hall _ ht''
              exact absurd hs (by simp)
        · intro m hm
          rcases List.mem_cons.mp hm with heq | hm'
          · exact absurd heq (by simp)
          · rcases List.mem_cons.mp hm' with heq | hm''
            · exact absurd heq (by simp)
            · obtain ⟨s, hs⟩ := hall _ hm''
              exact absurd hs (by simp)
        · rcases hr : (logLoop oldIds cs).2 with _ | u <;> simp [hr]

/-- C8 counterexample: a run in which the write happens and the Reconciler
then fails.  The old dataset's record lacks `status`, so after the file is
already written the change-log loop's `old['status']` raises: the trace
contains the write yet the run dies before the Reconciler completes. -/
theorem c8_counterexample :
    ((updateCases c8Cur wRespStatus "2025-10-12").1.any isWriteEv = true) ∧
    (updateCases c8Cur wRespStatus "2025-10-12").2 = none := by
  constructor
  · decide
  · decide

/-- C8 amended: in every run the write is the only mutating event, occurs
at most once, ends with a trailing newline, and happens only after the
Validator and the Reconciler's change detection have passed (a trace with
a write carries no error line, and a failed validation writes nothing);
but change-log emission follows the write, so a malformed old record can
still abort the run after persisting. -/
theorem c8_write_discipline (cd : Json) (resp td : String) :
    ((updateCases cd resp td).1.countP isWriteEv ≤ 1) ∧
    (∀ t, Event.writeStore t ∈ (updateCases cd resp td).1 →
        endsWithNL t = true) ∧
    (∀ t, Event.writeStore t ∈ (updateCases cd resp td).1 →
        ∀ m, Event.err m ∉ (updateCases cd resp td).1) ∧
    ((updateCases cd resp td).2 = some false →
        ∀ t, Event.writeStore t ∉ (updateCases cd resp td).1) := by
  rcases hp : buildUserPrompt cd td with _ | prompt
  · simp [updateCases, hp, isWriteEv, List.countP_cons]
  · rcases hn : pyNormalize resp with _ | raw
    · simp [updateCases, hp, hn, isWriteEv, List.countP_cons]
    · rcases he : jsonParse raw with e | updated
      · simp [updateCases, hp, hn, he, isWriteEv, List.countP_cons]
      · rcases ht : topCheck updated with _ | ov
        · simp [updateCases, hp, hn, he, ht, isWriteEv, List.countP_cons]
        · rcases ov with _ | ⟨updFs, cs⟩
          · simp [updateCases, hp, hn, he, ht, isWriteEv, List.countP_cons]
          · rcases hc : checkCasesLoop cs with _ | om
            · simp [updateCases, hp, hn, he, ht, hc, isWriteEv,
                List.countP_cons]
            · rcases om with _ | msg
              · rcases cd with _ | _ | _ | _ | _ | curFs
                case obj =>
                  obtain ⟨hcnt, hnl, herr, hfr⟩ :=
                    reconcile_props curFs updFs cs td
                  refine ⟨?_, ?_, ?_, ?_⟩ <;>
                    simp only [updateCases, hp, hn, he, ht, hc]
                  · simpa [List.countP_append, List.countP_cons, isWriteEv]
                      using hcnt
                  · intro t htm
                    simp only [List.mem_append] at htm
                    rcases htm with htm | htm
                    · simp at htm
                    · exact hnl t htm
                  · intro t htm m hmm
                    simp only [List.mem_append] at hmm
                    rcases hmm with hmm | hmm
                    · simp at hmm
                    · exact herr m hmm
                  · intro hfalse
                    exact absurd hfalse hfr
                all_goals
                  simp [updateCases, hp, hn, he, ht, hc, isWriteEv,
                    List.countP_cons]
              · simp [updateCases, hp, hn, he, ht, hc, isWriteEv,
                  List.countP_cons]

/-- C8 witness: the discipline at a concrete changed run — exactly one
write, newline-terminated, no error lines alongside it. -/
theorem c8_witness :
    ((updateCases wCurOne wRespStatus "2025-10-12").1.countP isWriteEv ≤ 1) ∧
    endsWithNL (dumpsPersist wCandStatus ++ "\n") = true ∧
    (∀ m, Event.err m ∉ (updateCases wCurOne wRespStatus "2025-10-12").1) := by
  obtain ⟨h1, h2, h3, _⟩ :=
    c8_write_discipline wCurOne wRespStatus "2025-10-12"
  refine ⟨h1, ?_, ?_⟩
  · exact h2 (dumpsPersist wCandStatus ++ "\n") (by decide)
  · intro m
    exact h3 (dumpsPersist wCandStatus ++ "\n") (by decide) m

theorem natDigitsF_irrel : ∀ (f1 : Nat), ∀ (f2 n : Nat), n < f1 → n < f2 →
    natDigitsF f1 n = natDigitsF f2 n := by
  intro f1
  induction f1 with
  | zero => intro f2 n h1 _; omega
  | succ k ih =>
    intro f2 n h1 h2
    cases f2 with
    | zero => omega
    | succ j =>
      simp only [natDigitsF]
      by_cases hn : n < 10
      · simp [hn]
      · simp only [hn, if_false]
        have hd : n / 10 < n := Nat.div_lt_self (by omega) (by omega)
        rw [ih j (n / 10) (by omega) (by omega)]

theorem natDigits_unfold (n : Nat) :
    natDigits n =
      if n < 10 then [hexDigit n]
      else natDigits (n / 10) ++ [hexDigit (n % 10)] := by
  unfold natDigits
  rw [natDigitsF]
  by_cases hn : n < 10
  · simp [hn]
  · simp only [hn, if_false]
    have hd : n / 10 < n := Nat.div_lt_self (by omega) (by omega)
    rw [natDigitsF_irrel n (n / 10 + 1) (n / 10) (by omega) (by omega)]

theorem hexDigit_isDigit (d : Nat) (h : d < 10) :
    isDigitC (hexDigit d) = true := by
  interval_cases d <;> decide

theorem hexDigit_inj10 (a b : Nat) (ha : a < 10) (hb : b < 10)
    (h : hexDigit a = hexDigit b) : a = b := by
  interval_cases a <;> interval_cases b <;> simp_all <;> exact absurd h (by decide)

theorem natDigits_ne_nil (n : Nat) : natDigits n ≠ [] := by
  rw [natDigits_unfold]
  by_cases hn : n < 10 <;> simp [hn]

theorem natDigits_all_digits (n : Nat) :
    ∀ c ∈ natDigits n, isDigitC c = true := by
  induction n using Nat.strong_induction_on with
  | _ n ih =>
    rw [natDigits_unfold]
    by_cases hn : n < 10
    · simp only [hn, if_true]
      intro c hc
      simp at hc
      rw [hc]
      exact hexDigit_isDigit n hn
    · simp only [hn, if_false]
      intro c hc
      rcases List.mem_append.mp hc with h | h
      · exact ih (n / 10) (Nat.div_lt_self (by omega) (by omega)) c h
      · simp at h
        rw [h]
        exact hexDigit_isDigit (n % 10) (by omega)

theorem natDigits_inj : ∀ (n m : Nat), natDigits n = natDigits m → n = m := by
  intro n
  induction n using Nat.strong_induction_on with
  | _ n ih =>
    intro m h
    rw [natDigits_unfold n, natDigits_unfold m] at h
    by_cases hn : n < 10
    · by_cases hm : m < 10
      · rw [if_pos hn, if_pos hm] at h
        simp at h
        exact hexDigit_inj10 n m hn hm h
      · rw [if_pos hn, if_neg hm] at h
        have hlen := congrArg List.length h
        rcases hnil : natDigits (m / 10) with _ | ⟨a, l⟩
        · exact absurd hnil (natDigits_ne_nil (m / 10))
        · rw [hnil] at hlen
          simp at hlen
    · by_cases hm : m < 10
      · rw [if_neg hn, if_pos hm] at h
        have hlen := congrArg List.length h
        rcases hnil : natDigits (n / 10) with _ | ⟨a, l⟩
        · exact absurd hnil (natDigits_ne_nil (n / 10))
        · rw [hnil] at hlen
          simp at hlen
      · rw [if_neg hn, if_neg hm] at h
        have hrev := congrArg List.reverse h
        simp at hrev
        obtain ⟨h1, h2⟩ := hrev
        have hmod := hexDigit_inj10 (n % 10) (m % 10) (by omega) (by omega) h1
        have hdiv : n / 10 = m / 10 := by
          apply ih (n / 10) (Nat.div_lt_self (by omega) (by omega))
          have h3 := congrArg List.reverse h2
          simpa using h3
        omega

theorem natDigits_append_inj (n m : Nat) (s t : List Char)
    (h : natDigits n ++ s = natDigits m ++ t)
    (hs : goodHead s = true) (ht : goodHead t = true) : n = m ∧ s = t := by
  rcases List.append_eq_append_iff.mp h with ⟨mid, hm1, hm2⟩ | ⟨mid, hm1, hm2⟩
  · cases mid with
    | nil =>
      simp at hm1 hm2
      exact ⟨natDigits_inj n m hm1.symm, hm2⟩
    | cons c r =>
      have hc : c ∈ natDigits m := by
        rw [hm1]; simp
      have := natDigits_all_digits m c hc
      rw [hm2] at hs
      simp [goodHead, this] at hs
  · cases mid with
    | nil =>
      simp at hm1 hm2
      exact ⟨natDigits_inj n m hm1, hm2.symm⟩
    | cons c r =>
      have hc : c ∈ natDigits n := by
        rw [hm1]; simp
      have := natDigits_all_digits n c hc
      rw [hm2] at ht
      simp [goodHead, this] at ht

theorem natDigits_head (n : Nat) :
    ∃ c r, natDigits n = c :: r ∧ isDigitC c = true := by
  cases hh : natDigits n with
  | nil => exact absurd hh (natDigits_ne_nil n)
  | cons c r =>
    exact ⟨c, r, rfl, natDigits_all_digits n c (by rw [hh]; simp)⟩

theorem intRepr_append_inj (a b : Int) (s t : List Char)
    (h : intRepr a ++ s = intRepr b ++ t)
    (hs : goodHead s = true) (ht : goodHead t = true) : a = b ∧ s = t := by
  unfold intRepr at h
  by_cases ha : a < 0 <;> by_cases hb : b < 0
  · rw [if_pos ha, if_pos hb] at h
    simp only [List.cons_append, List.cons.injEq] at h
    obtain ⟨hn, hst⟩ := natDigits_append_inj _ _ s t h.2 hs ht
    exact ⟨by omega, hst⟩
  · rw [if_pos ha, if_neg hb] at h
    obtain ⟨c, r, hcr, hdig⟩ := natDigits_head b.toNat
    rw [hcr] at h
    simp at h
    rw [← h.1] at hdig
    simp [isDigitC] at hdig
  · rw [if_neg ha, if_pos hb] at h
    obtain ⟨c, r, hcr, hdig⟩ := natDigits_head a.toNat
    rw [hcr] at h
    simp at h
    rw [h.1] at hdig
    simp [isDigitC] at hdig
  · rw [if_neg ha, if_neg hb] at h
    obtain ⟨hn, hst⟩ := natDigits_append_inj _ _ s t h hs ht
    exact ⟨by omega, hst⟩

theorem hexVal_hexDigit (d : Nat) (h : d < 16) : hexVal (hexDigit d) = some d := by
  interval_cases d <;> decide


theorem unescU_u (n : Nat) (hn : n < 65536) (tail : List Char) :
    unescU ('\\' :: 'u' :: (hex4 n ++ tail)) = some (n, tail) := by
  simp only [hex4, List.cons_append, List.nil_append]
  simp [unescU]
  rw [hexVal_hexDigit _ (by omega), hexVal_hexDigit _ (by omega),
    hexVal_hexDigit _ (by omega), hexVal_hexDigit _ (by omega)]
  simp
  omega

theorem unescU_lit (c : Char) (r : List Char) (hc : c ≠ '\\') :
    unescU (c :: r) = some (c.toNat, r) := by
  have ht : c.toNat ≠ 92 := by
    intro h
    apply hc
    rw [show ('\\' : Char) = Char.ofNat 92 from rfl, ← h, Char.ofNat_toNat]
  simp only [unescU]
  rw [if_pos ht]

theorem unescFirst_of_unit (l : List Char) (n : Nat) (r : List Char)
    (h : unescU l = some (n, r)) (hns : ¬(55296 ≤ n ∧ n < 56320)) :
    unescFirst l = some (Char.ofNat n, r) := by
  unfold unescFirst
  rw [h]
  simp [hns]

theorem unescFirst_of_pair (l : List Char) (n m : Nat) (r r' : List Char)
    (h1 : unescU l = some (n, r)) (hn : 55296 ≤ n ∧ n < 56320)
    (h2 : unescU r = some (m, r')) (hm : 56320 ≤ m ∧ m < 57344) :
    unescFirst l =
      some (Char.ofNat (65536 + (n - 55296) * 1024 + (m - 56320)), r') := by
  unfold unescFirst
  rw [h1]
  simp [hn, h2, hm]

theorem escChar_roundtrip (c : Char) (rest : List Char) :
    unescFirst (escCharA true c ++ rest) = some (c, rest) := by
  have hval : c.toNat < 55296 ∨ (57344 ≤ c.toNat ∧ c.toNat < 1114112) := by
    have := c.valid
    rcases this with h | ⟨h1, h2⟩
    · left; exact h
    · right; exact ⟨h1, h2⟩
  by_cases h1 : c = '"'
  · subst h1; rfl
  by_cases h2 : c = '\\'
  · subst h2; rfl
  by_cases h3 : c = '\n'
  · subst h3; rfl
  by_cases h4 : c = '\r'
  · subst h4; rfl
  by_cases h5 : c = '\t'
  · subst h5; rfl
  by_cases h6 : c.toNat = 8
  · rw [show c = Char.ofNat 8 from by rw [← h6, Char.ofNat_toNat]]
    rfl
  by_cases h7 : c.toNat = 12
  · rw [show c = Char.ofNat 12 from by rw [← h7, Char.ofNat_toNat]]
    rfl
  by_cases h8 : c.toNat < 32
  · have hesc : escCharA true c = '\\' :: 'u' :: hex4 c.toNat := by
      unfold escCharA
      rw [if_neg h1, if_neg h2, if_neg h3, if_neg h4, if_neg h5, if_neg h6,
        if_neg h7, if_pos h8]
    rw [hesc, show ('\\' :: 'u' :: hex4 c.toNat) ++ rest =
      '\\' :: 'u' :: (hex4 c.toNat ++ rest) from by simp]
    rw [unescFirst_of_unit _ c.toNat rest (unescU_u c.toNat (by omega) rest)
      (by omega), Char.ofNat_toNat]
  by_cases h10 : c.toNat < 127
  · have hesc : escCharA true c = [c] := by
      unfold escCharA
      rw [if_neg h1, if_neg h2, if_neg h3, if_neg h4, if_neg h5, if_neg h6,
        if_neg h7, if_neg h8, if_neg (by decide), if_pos h10]
    rw [hesc, show [c] ++ rest = c :: rest from by simp]
    rw [unescFirst_of_unit _ c.toNat rest (unescU_lit c rest h2) (by omega),
      Char.ofNat_toNat]
  by_cases h11 : c.toNat < 65536
  · have hesc : escCharA true c = '\\' :: 'u' :: hex4 c.toNat := by
      unfold escCharA
      rw [if_neg h1, if_neg h2, if_neg h3, if_neg h4, if_neg h5, if_neg h6,
        if_neg h7, if_neg h8, if_neg (by decide), if_neg h10, if_pos h11]
    rw [hesc, show ('\\' :: 'u' :: hex4 c.toNat) ++ rest =
      '\\' :: 'u' :: (hex4 c.toNat ++ rest) from by simp]
    rw [unescFirst_of_unit _ c.toNat rest (unescU_u c.toNat (by omega) rest)
      (by omega), Char.ofNat_toNat]
  · have hge : 65536 ≤ c.toNat := by omega
    have hlt : c.toNat < 1114112 := by omega
    have hesc : escCharA true c =
        '\\' :: 'u' :: hex4 (55296 + (c.toNat - 65536) / 1024) ++
          '\\' :: 'u' :: hex4 (56320 + (c.toNat - 65536) % 1024) := by
      unfold escCharA
      rw [if_neg h1, if_neg h2, if_neg h3, if_neg h4, if_neg h5, if_neg h6,
        if_neg h7, if_neg h8, if_neg (by decide), if_neg h10, if_neg h11]
    rw [hesc, show ('\\' :: 'u' :: hex4 (55296 + (c.toNat - 65536) / 1024) ++
        '\\' :: 'u' :: hex4 (56320 + (c.toNat - 65536) % 1024)) ++ rest =
      '\\' :: 'u' :: (hex4 (55296 + (c.toNat - 65536) / 1024) ++
        ('\\' :: 'u' :: (hex4 (56320 + (c.toNat - 65536) % 1024) ++ rest)))
      from by simp]
    rw [unescFirst_of_pair _ (55296 + (c.toNat - 65536) / 1024)
      (56320 + (c.toNat - 65536) % 1024) _ rest
      (unescU_u _ (by omega) _) (by omega)
      (unescU_u _ (by omega) rest) (by omega)]
    rw [show 65536 + (55296 + (c.toNat - 65536) / 1024 - 55296) * 1024 +
      (56320 + (c.toNat - 65536) % 1024 - 56320) = c.toNat from by omega,
      Char.ofNat_toNat]

theorem escChar_ne_nil (c : Char) : escCharA true c ≠ [] := by
  intro h
  have hrt := escChar_roundtrip c []
  rw [h] at hrt
  simp [unescFirst, unescU] at hrt

theorem escChar_head_ne_quote (c : Char) (x : Char) (r : List Char)
    (h : escCharA true c = x :: r) : x ≠ '"' := by
  intro hx
  subst hx
  have hrt := escChar_roundtrip c []
  rw [h, List.cons_append] at hrt
  rw [unescFirst_of_unit _ 34 (r ++ []) (unescU_lit '"' _ (by decide))
    (by omega)] at hrt
  simp at hrt
  rw [← hrt.1] at h
  rw [show escCharA true (Char.ofNat 34) = ['\\', '"'] from rfl] at h
  simp at h

theorem escChar_append_inj (c d : Char) (x y : List Char)
    (h : escCharA true c ++ x = escCharA true d ++ y) : c = d ∧ x = y := by
  have h1 := escChar_roundtrip c x
  have h2 := escChar_roundtrip d y
  rw [h, h2] at h1
  simp at h1
  exact ⟨h1.1.symm, h1.2.symm⟩

theorem escList_append_inj : ∀ (as bs r t : List Char),
    escList true as ++ '"' :: r = escList true bs ++ '"' :: t →
    as = bs ∧ r = t
  | [], [], r, t => by simp [escList]
  | [], b :: bs, r, t => by
    simp only [escList, List.nil_append, List.append_assoc]
    intro h
    rcases hb : escCharA true b with _ | ⟨x, rr⟩
    · exact absurd hb (escChar_ne_nil b)
    · rw [hb] at h
      simp at h
      exact absurd h.1 (Ne.symm (escChar_head_ne_quote b x rr hb))
  | a :: as, [], r, t => by
    simp only [escList, List.nil_append, List.append_assoc]
    intro h
    rcases ha : escCharA true a with _ | ⟨x, rr⟩
    · exact absurd ha (escChar_ne_nil a)
    · rw [ha] at h
      simp at h
      exact absurd h.1.symm (Ne.symm (escChar_head_ne_quote a x rr ha))
  | a :: as, b :: bs, r, t => by
    simp only [escList, List.append_assoc]
    intro h
    obtain ⟨hcd, hrest⟩ := escChar_append_inj a b _ _ h
    subst hcd
    obtain ⟨h1, h2⟩ := escList_append_inj as bs r t hrest
    exact ⟨by rw [h1], h2⟩

theorem escString_append_inj (s t : String) (r u : List Char)
    (h : escString true s ++ r = escString true t ++ u) : s = t ∧ r = u := by
  simp only [escString, List.cons_append, List.append_assoc,
    List.nil_append] at h
  simp at h
  obtain ⟨hd, hru⟩ := escList_append_inj s.data t.data r u (by
    simpa using h)
  exact ⟨String.ext hd, hru⟩

theorem digit_head_facts (x : Char) (h : isDigitC x = true) :
    headTag x = 3 ∧ x ≠ ']' ∧ x ≠ rbrace ∧ x ≠ ',' ∧ x ≠ ' ' := by
  simp [isDigitC] at h
  have hne : ∀ c : Char, isDigitC c = false → x ≠ c := by
    intro c hc heq
    subst heq
    simp [isDigitC] at hc
    omega
  refine ⟨?_, hne ']' (by decide), hne rbrace (by decide),
    hne ',' (by decide), hne ' ' (by decide)⟩
  unfold headTag
  rw [if_neg (hne 'n' (by decide)), if_neg (hne 't' (by decide)),
    if_neg (hne 'f' (by decide)), if_neg (hne '"' (by decide)),
    if_neg (hne '[' (by decide)), if_neg (hne lbrace (by decide))]

theorem emit_head_tag (v : Json) :
    ∃ x r, emitVal v = x :: r ∧ headTag x = vTag v ∧
      x ≠ ']' ∧ x ≠ rbrace ∧ x ≠ ',' ∧ x ≠ ' ' := by
  cases v with
  | null => exact ⟨'n', _, rfl, by decide, by decide, by decide, by decide,
      by decide⟩
  | bool b =>
    cases b
    · exact ⟨'f', _, rfl, by decide, by decide, by decide, by decide,
        by decide⟩
    · exact ⟨'t', _, rfl, by decide, by decide, by decide, by decide,
        by decide⟩
  | num n =>
    by_cases hn : n < 0
    · refine ⟨'-', natDigits n.natAbs, ?_, rfl, by decide, by decide,
        by decide, by decide⟩
      show intRepr n = _
      rw [intRepr, if_pos hn]
    · obtain ⟨c, r, hcr, hdig⟩ := natDigits_head n.toNat
      obtain ⟨ht, h1, h2, h3, h4⟩ := digit_head_facts c hdig
      refine ⟨c, r, ?_, by rw [ht]; rfl, h1, h2, h3, h4⟩
      simp only [emitVal, intRepr, if_neg hn]
      exact hcr
  | str s => exact ⟨'"', _, rfl, rfl, by decide, by decide, by decide,
      by decide⟩
  | arr xs => exact ⟨'[', _, rfl, rfl, by decide, by decide, by decide,
      by decide⟩
  | obj fs => exact ⟨lbrace, _, rfl, rfl, by decide, by decide,
      by decide, by decide⟩

theorem emit_tag_eq (v w : Json) (s t : List Char)
    (h : emitVal v ++ s = emitVal w ++ t) : vTag v = vTag w := by
  obtain ⟨x, r, hx, htx, _⟩ := emit_head_tag v
  obtain ⟨y, q, hy, hty, _⟩ := emit_head_tag w
  rw [hx, hy] at h
  simp at h
  rw [← htx, ← hty, h.1]

mutual
/-- Compact serialization is injective given continuations that do not
begin with a digit (so a number cannot silently extend into them). -/
theorem emitVal_inj : ∀ (v w : Json) (s t : List Char),
    goodHead s = true → goodHead t = true →
    emitVal v ++ s = emitVal w ++ t → v = w ∧ s = t
  | .null, w, s, t => fun _ _ h => by
    have htag := emit_tag_eq .null w s t h
    rcases w with _ | b | m | u | ys | gs
    · simp only [emitVal] at h
      simp at h
      exact ⟨rfl, h⟩
    · cases b <;> simp [vTag] at htag
    · simp [vTag] at htag
    · simp [vTag] at htag
    · simp [vTag] at htag
    · simp [vTag] at htag
  | .bool b, w, s, t => fun _ _ h => by
    have htag := emit_tag_eq (.bool b) w s t h
    rcases w with _ | c | m | u | ys | gs
    · cases b <;> simp [vTag] at htag
    · cases b <;> cases c <;> simp [vTag] at htag <;>
        simp only [emitVal] at h <;> simp at h <;> exact ⟨rfl, h⟩
    · cases b <;> simp [vTag] at htag
    · cases b <;> simp [vTag] at htag
    · cases b <;> simp [vTag] at htag
    · cases b <;> simp [vTag] at htag
  | .num n, w, s, t => fun hs ht h => by
    have htag := emit_tag_eq (.num n) w s t h
    rcases w with _ | b | m | u | ys | gs
    · simp [vTag] at htag
    · cases b <;> simp [vTag] at htag
    · simp only [emitVal] at h
      obtain ⟨h1, h2⟩ := intRepr_append_inj n m s t h hs ht
      exact ⟨by rw [h1], h2⟩
    · simp [vTag] at htag
    · simp [vTag] at htag
    · simp [vTag] at htag
  | .str a, w, s, t => fun _ _ h => by
    have htag := emit_tag_eq (.str a) w s t h
    rcases w with _ | b | m | u | ys | gs
    · simp [vTag] at htag
    · cases b <;> simp [vTag] at htag
    · simp [vTag] at htag
    · simp only [emitVal] at h
      obtain ⟨h1, h2⟩ := escString_append_inj a u s t h
      exact ⟨by rw [h1], h2⟩
    · simp [vTag] at htag
    · simp [vTag] at htag
  | .arr xs, w, s, t => fun _ _ h => by
    have htag := emit_tag_eq (.arr xs) w s t h
    rcases w with _ | b | m | u | ys | gs
    · simp [vTag] at htag
    · cases b <;> simp [vTag] at htag
    · simp [vTag] at htag
    · simp [vTag] at htag
    · simp only [emitVal, List.cons_append, List.append_assoc,
        List.nil_append] at h
      simp only [List.cons.injEq, true_and] at h
      obtain ⟨h1, h2⟩ := emitArr_inj xs ys s t h
      exact ⟨by rw [h1], h2⟩
    · simp [vTag] at htag
  | .obj fs, w, s, t => fun _ _ h => by
    have htag := emit_tag_eq (.obj fs) w s t h
    rcases w with _ | b | m | u | ys | gs
    · simp [vTag] at htag
    · cases b <;> simp [vTag] at htag
    · simp [vTag] at htag
    · simp [vTag] at htag
    · simp [vTag] at htag
    · simp only [emitVal, List.cons_append, List.append_assoc,
        List.nil_append] at h
      simp only [List.cons.injEq, true_and] at h
      obtain ⟨h1, h2⟩ := emitFields_inj fs gs s t h
      exact ⟨by rw [h1], h2⟩

/-- Array bodies are injective before a closing bracket. -/
theorem emitArr_inj : ∀ (xs ys : JArr) (s t : List Char),
    emitArr xs ++ ']' :: s = emitArr ys ++ ']' :: t → xs = ys ∧ s = t
  | .nil, ys, s, t => fun h => by
    rcases ys with _ | ⟨y, ys'⟩
    · simp only [emitArr, List.nil_append] at h
      simp at h
      exact ⟨rfl, h⟩
    · exfalso
      obtain ⟨x, r, hx, _, hne, _⟩ := emit_head_tag y
      have hk : ∃ k, emitArr (.cons y ys') = emitVal y ++ k := by
        rcases ys' with _ | ⟨z, zs⟩
        · exact ⟨[], by simp [emitArr]⟩
        · exact ⟨',' :: ' ' :: emitArr (.cons z zs), by simp [emitArr]⟩
      obtain ⟨k, hk⟩ := hk
      rw [hk, hx] at h
      simp only [emitArr, List.nil_append, List.cons_append,
        List.append_assoc] at h
      simp only [List.cons.injEq] at h
      exact hne h.1.symm
  | .cons x xs', ys, s, t => fun h => by
    rcases ys with _ | ⟨y, ys'⟩
    · exfalso
      obtain ⟨c, r, hc, _, hne, _⟩ := emit_head_tag x
      have hk : ∃ k, emitArr (.cons x xs') = emitVal x ++ k := by
        rcases xs' with _ | ⟨z, zs⟩
        · exact ⟨[], by simp [emitArr]⟩
        · exact ⟨',' :: ' ' :: emitArr (.cons z zs), by simp [emitArr]⟩
      obtain ⟨k, hk⟩ := hk
      rw [hk, hc] at h
      simp only [emitArr, List.nil_append, List.cons_append,
        List.append_assoc] at h
      simp only [List.cons.injEq] at h
      exact hne h.1
    · rcases xs' with _ | ⟨z, zs⟩ <;> rcases ys' with _ | ⟨p, ps⟩
      · simp only [emitArr] at h
        obtain ⟨h1, h2⟩ := emitVal_inj x y (']' :: s) (']' :: t) rfl rfl h
        simp only [List.cons.injEq, true_and] at h2
        exact ⟨by rw [h1], h2⟩
      · simp only [emitArr, List.cons_append, List.append_assoc] at h
        obtain ⟨h1, h2⟩ := emitVal_inj x y (']' :: s)
          (',' :: ' ' :: (emitArr (.cons p ps) ++ ']' :: t)) rfl rfl h
        simp at h2
      · simp only [emitArr, List.cons_append, List.append_assoc] at h
        obtain ⟨h1, h2⟩ := emitVal_inj x y
          (',' :: ' ' :: (emitArr (.cons z zs) ++ ']' :: s)) (']' :: t)
          rfl rfl h
        simp at h2
      · simp only [emitArr, List.cons_append, List.append_assoc] at h
        obtain ⟨h1, h2⟩ := emitVal_inj x y
          (',' :: ' ' :: (emitArr (.cons z zs) ++ ']' :: s))
          (',' :: ' ' :: (emitArr (.cons p ps) ++ ']' :: t)) rfl rfl h
        simp only [List.cons.injEq, true_and] at h2
        obtain ⟨h3, h4⟩ := emitArr_inj (.cons z zs) (.cons p ps) s t h2
        exact ⟨by rw [h1, h3], h4⟩

/-- Object bodies are injective before a closing brace. -/
theorem emitFields_inj : ∀ (fs gs : JObj) (s t : List Char),
    emitFields fs ++ rbrace :: s = emitFields gs ++ rbrace :: t →
    fs = gs ∧ s = t
  | .nil, gs, s, t => fun h => by
    rcases gs with _ | ⟨k, v, gs'⟩
    · simp only [emitFields, List.nil_append] at h
      simp at h
      exact ⟨rfl, h⟩
    · exfalso
      have hk : ∃ m, emitFields (.cons k v gs') = escString true k ++ m := by
        rcases gs' with _ | ⟨p, q, ps⟩
        · exact ⟨':' :: ' ' :: emitVal v, by simp [emitFields]⟩
        · exact ⟨':' :: ' ' :: emitVal v ++
            ',' :: ' ' :: emitFields (.cons p q ps), by
              simp [emitFields, List.append_assoc]⟩
      obtain ⟨m, hm⟩ := hk
      rw [hm] at h
      simp only [emitFields, escString, List.nil_append, List.cons_append,
        List.append_assoc] at h
      simp only [List.cons.injEq] at h
      exact absurd h.1 (by decide)
  | .cons k v fs', gs, s, t => fun h => by
    rcases gs with _ | ⟨k2, v2, gs'⟩
    · exfalso
      have hk : ∃ m, emitFields (.cons k v fs') = escString true k ++ m := by
        rcases fs' with _ | ⟨p, q, ps⟩
        · exact ⟨':' :: ' ' :: emitVal v, by simp [emitFields]⟩
        · exact ⟨':' :: ' ' :: emitVal v ++
            ',' :: ' ' :: emitFields (.cons p q ps), by
              simp [emitFields, List.append_assoc]⟩
      obtain ⟨m, hm⟩ := hk
      rw [hm] at h
      simp only [emitFields, escString, List.nil_append, List.cons_append,
        List.append_assoc] at h
      simp only [List.cons.injEq] at h
      exact absurd h.1 (by decide)
    · rcases fs' with _ | ⟨z1, z2, zs⟩ <;> rcases gs' with _ | ⟨p1, p2, ps⟩
      · simp only [emitFields, List.cons_append, List.append_assoc] at h
        obtain ⟨hk, h2⟩ := escString_append_inj k k2 _ _ h
        simp only [List.cons.injEq, true_and] at h2
        obtain ⟨hv, h3⟩ := emitVal_inj v v2 (rbrace :: s) (rbrace :: t)
          rfl rfl h2
        simp only [List.cons.injEq, true_and] at h3
        exact ⟨by rw [hk, hv], h3⟩
      · simp only [emitFields, List.cons_append, List.append_assoc] at h
        obtain ⟨hk, h2⟩ := escString_append_inj k k2 _ _ h
        simp only [List.cons.injEq, true_and] at h2
        obtain ⟨hv, h3⟩ := emitVal_inj v v2 (rbrace :: s)
          (',' :: ' ' :: (emitFields (.cons p1 p2 ps) ++ rbrace :: t))
          rfl rfl h2
        simp only [List.cons.injEq] at h3
        exact absurd h3.1 (by decide)
      · simp only [emitFields, List.cons_append, List.append_assoc] at h
        obtain ⟨hk, h2⟩ := escString_append_inj k k2 _ _ h
        simp only [List.cons.injEq, true_and] at h2
        obtain ⟨hv, h3⟩ := emitVal_inj v v2
          (',' :: ' ' :: (emitFields (.cons z1 z2 zs) ++ rbrace :: s))
          (rbrace :: t) rfl rfl h2
        simp only [List.cons.injEq] at h3
        exact absurd h3.1 (by decide)
      · simp only [emitFields, List.cons_append, List.append_assoc] at h
        obtain ⟨hk, h2⟩ := escString_append_inj k k2 _ _ h
        simp only [List.cons.injEq, true_and] at h2
        obtain ⟨hv, h3⟩ := emitVal_inj v v2
          (',' :: ' ' :: (emitFields (.cons z1 z2 zs) ++ rbrace :: s))
          (',' :: ' ' :: (emitFields (.cons p1 p2 ps) ++ rbrace :: t))
          rfl rfl h2
        simp only [List.cons.injEq, true_and] at h3
        obtain ⟨h4, h5⟩ := emitFields_inj (.cons z1 z2 zs) (.cons p1 p2 ps)
          s t h3
        exact ⟨by rw [hk, hv, h4], h5⟩
end

theorem insertSorted_perm (k : String) (v : Json) :
    ∀ fs : JObj, (JObj.insertSorted k v fs).toList.Perm ((k, v) :: fs.toList)
  | .nil => by simp [JObj.insertSorted, JObj.toList]
  | .cons k2 v2 rest => by
    by_cases hlt : strLt k2.data k.data
    · simp only [JObj.insertSorted, if_pos hlt, JObj.toList]
      exact ((insertSorted_perm k v rest).cons (k2, v2)).trans
        (List.Perm.swap (k, v) (k2, v2) rest.toList)
    · simp only [JObj.insertSorted, if_neg hlt]
      exact List.Perm.refl _

theorem sortFields_perm :
    ∀ fs : JObj, (JObj.sortFields fs).toList.Perm fs.toList
  | .nil => List.Perm.refl _
  | .cons k v rest => by
    simp only [JObj.sortFields, JObj.toList]
    exact (insertSorted_perm k v (JObj.sortFields rest)).trans
      ((sortFields_perm rest).cons (k, v))

theorem sortNormFields_toList :
    ∀ fs : JObj, (sortNormFields fs).toList
      = fs.toList.map (fun p => (p.1, sortNorm p.2))
  | .nil => rfl
  | .cons k v rest => by
    simp only [sortNormFields, JObj.toList, List.map_cons]
    rw [sortNormFields_toList rest]

theorem length_toList :
    ∀ fs : JObj, JObj.length fs = fs.toList.length
  | .nil => rfl
  | .cons _ _ rest => by
    simp only [JObj.length, JObj.toList, List.length_cons, length_toList rest]

theorem lookup_mem (k : String) (v : Json) :
    ∀ fs : JObj, JObj.lookup k fs = some v → (k, v) ∈ fs.toList
  | .nil => by intro h; simp [JObj.lookup] at h
  | .cons k2 v2 rest => by
    intro h
    simp only [JObj.lookup] at h
    by_cases hk : k2 = k
    · rw [if_pos hk] at h
      subst hk
      simp only [JObj.toList, List.mem_cons]
      exact Or.inl (by rw [Option.some.injEq] at h; rw [h])
    · rw [if_neg hk] at h
      simp only [JObj.toList, List.mem_cons]
      exact Or.inr (lookup_mem k v rest h)

theorem mem_lookup_isSome (k : String) (v : Json) :
    ∀ fs : JObj, (k, v) ∈ fs.toList → (JObj.lookup k fs).isSome = true
  | .nil => by intro h; simp [JObj.toList] at h
  | .cons k2 v2 rest => by
    intro h
    simp only [JObj.toList, List.mem_cons] at h
    simp only [JObj.lookup]
    by_cases hk : k2 = k
    · rw [if_pos hk]; rfl
    · rw [if_neg hk]
      rcases h with h | h
      · exact absurd (congrArg Prod.fst h).symm hk
      · exact mem_lookup_isSome k v rest h

theorem mem_lookup_nodup (k : String) (v : Json) :
    ∀ fs : JObj, nodupKeys fs = true → (k, v) ∈ fs.toList →
      JObj.lookup k fs = some v
  | .nil => by intro _ h; simp [JObj.toList] at h
  | .cons k2 v2 rest => by
    intro hnd h
    simp only [nodupKeys, Bool.and_eq_true, Bool.not_eq_true'] at hnd
    simp only [JObj.toList, List.mem_cons] at h
    simp only [JObj.lookup]
    by_cases hk : k2 = k
    · rw [if_pos hk]
      subst hk
      rcases h with h | h
      · rw [(Prod.mk.injEq _ _ _ _).mp h.symm |>.2]
      · exact absurd (mem_lookup_isSome k2 v rest h)
          (by rw [JObj.hasKey] at hnd; simp [hnd.1])
    · rw [if_neg hk]
      rcases h with h | h
      · exact absurd (congrArg Prod.fst h).symm hk
      · exact mem_lookup_nodup k v rest hnd.2 h

theorem wfO_lookup (k : String) (v : Json) :
    ∀ fs : JObj, wfO fs = true → JObj.lookup k fs = some v → wfJ v = true
  | .nil => by intro _ h; simp [JObj.lookup] at h
  | .cons k2 v2 rest => by
    intro hw h
    simp only [wfO, Bool.and_eq_true] at hw
    simp only [JObj.lookup] at h
    by_cases hk : k2 = k
    · rw [if_pos hk, Option.some.injEq] at h
      rw [← h]; exact hw.1
    · rw [if_neg hk] at h
      exact wfO_lookup k v rest hw.2 h

mutual
/-- Equal recursively-key-sorted forms imply Python `==` (for documents
with duplicate-free keys, as `json.loads` produces). -/
theorem pyEq_of_sortNorm : ∀ (a b : Json),
    wfJ a = true → wfJ b = true → sortNorm a = sortNorm b → pyEq a b = true
  | .null, b => fun _ _ h => by
    rcases b with _ | c | m | u | ys | gs <;> simp only [sortNorm] at h
    · rfl
    all_goals simp at h
  | .bool b0, b => fun _ _ h => by
    rcases b with _ | c | m | u | ys | gs <;> simp only [sortNorm] at h
    case bool =>
      simp only [Json.bool.injEq] at h
      subst h
      simp [pyEq]
    all_goals simp at h
  | .num n, b => fun _ _ h => by
    rcases b with _ | c | m | u | ys | gs <;> simp only [sortNorm] at h
    case num =>
      simp only [Json.num.injEq] at h
      subst h
      simp [pyEq]
    all_goals simp at h
  | .str a0, b => fun _ _ h => by
    rcases b with _ | c | m | u | ys | gs <;> simp only [sortNorm] at h
    case str =>
      simp only [Json.str.injEq] at h
      subst h
      simp [pyEq]
    all_goals simp at h
  | .arr xs, b => fun ha hb h => by
    rcases b with _ | c | m | u | ys | gs <;> simp only [sortNorm] at h
    case arr =>
      simp only [Json.arr.injEq] at h
      simp only [wfJ] at ha hb
      simp only [pyEq]
      exact pyEqArr_of_sortNorm xs ys ha hb h
    all_goals simp at h
  | .obj fs, b => fun ha hb h => by
    rcases b with _ | c | m | u | ys | gs <;> simp only [sortNorm] at h
    case obj =>
      simp only [Json.obj.injEq] at h
      simp only [wfJ, Bool.and_eq_true] at ha hb
      have h1 := sortFields_perm (sortNormFields fs)
      have h2 := sortFields_perm (sortNormFields gs)
      rw [h] at h1
      have hperm0 := h1.symm.trans h2
      rw [sortNormFields_toList fs, sortNormFields_toList gs] at hperm0
      have hlen : JObj.length fs = JObj.length gs := by
        have := hperm0.length_eq
        simp only [List.length_map] at this
        rw [length_toList, length_toList]
        exact this
      have htr : ∀ k v, JObj.lookup k fs = some v →
          ∃ w, JObj.lookup k gs = some w ∧ sortNorm v = sortNorm w := by
        intro k v hkv
        have hmem := lookup_mem k v fs hkv
        have hmem2 : (k, sortNorm v) ∈
            gs.toList.map (fun p => (p.1, sortNorm p.2)) := by
          apply hperm0.mem_iff.mp
          exact List.mem_map_of_mem (fun p => (p.1, sortNorm p.2)) hmem
        obtain ⟨⟨k2, w⟩, hwmem, hweq⟩ := List.mem_map.mp hmem2
        simp only [Prod.mk.injEq] at hweq
        obtain ⟨hk2, hsw⟩ := hweq
        subst hk2
        exact ⟨w, mem_lookup_nodup k2 w gs hb.1 hwmem, hsw.symm⟩
      simp only [pyEq, Bool.and_eq_true, decide_eq_true_eq]
      exact ⟨hlen, pyEqFields_of fs gs ha.2 hb.2 ha.1 htr⟩
    all_goals simp at h

/-- Elementwise version for arrays. -/
theorem pyEqArr_of_sortNorm : ∀ (xs ys : JArr),
    wfA xs = true → wfA ys = true → sortNormArr xs = sortNormArr ys →
    pyEqArr xs ys = true
  | .nil, .nil => fun _ _ _ => rfl
  | .nil, .cons y ys => fun _ _ h => by simp [sortNormArr] at h
  | .cons x xs, .nil => fun _ _ h => by simp [sortNormArr] at h
  | .cons x xs, .cons y ys => fun ha hb h => by
    simp only [sortNormArr, JArr.cons.injEq] at h
    simp only [wfA, Bool.and_eq_true] at ha hb
    simp only [pyEqArr, Bool.and_eq_true]
    exact ⟨pyEq_of_sortNorm x y ha.1 hb.1 h.1,
      pyEqArr_of_sortNorm xs ys ha.2 hb.2 h.2⟩

/-- Fieldwise version: every binding of the first object finds, by key, a
binding in the second with `sortNorm`-equal value. -/
theorem pyEqFields_of : ∀ (fs gs : JObj),
    wfO fs = true → wfO gs = true → nodupKeys fs = true →
    (∀ k v, JObj.lookup k fs = some v →
      ∃ w, JObj.lookup k gs = some w ∧ sortNorm v = sortNorm w) →
    pyEqFields fs gs = true
  | .nil, gs => fun _ _ _ _ => rfl
  | .cons k v fs2, gs => fun hwf hwg hnd htr => by
    simp only [pyEqFields, Bool.and_eq_true]
    simp only [wfO, Bool.and_eq_true] at hwf
    simp only [nodupKeys, Bool.and_eq_true, Bool.not_eq_true'] at hnd
    have hhead : JObj.lookup k (.cons k v fs2) = some v := by
      simp [JObj.lookup]
    obtain ⟨w, hw, hsw⟩ := htr k v hhead
    refine ⟨?_, ?_⟩
    · rw [hw]
      exact pyEq_of_sortNorm v w hwf.1 (wfO_lookup k w gs hwg hw) hsw
    · apply pyEqFields_of fs2 gs hwf.2 hwg hnd.2
      intro k2 v2 hk2
      apply htr k2 v2
      simp only [JObj.lookup]
      by_cases hkk : k = k2
      · subst hkk
        have hsome : (JObj.lookup k fs2).isSome = true := by rw [hk2]; rfl
        simp only [JObj.hasKey] at hnd
        rw [hnd.1] at hsome
        exact absurd hsome (by decide)
      · rw [if_neg hkk]
        exact hk2
end

theorem dumps_eq_iff (a b : Json) :
    dumps a = dumps b ↔ sortNorm a = sortNorm b := by
  constructor
  · intro h
    have h2 : emitVal (sortNorm a) = emitVal (sortNorm b) := by
      have h3 := congrArg String.data h
      simpa [dumps] using h3
    have h3 : emitVal (sortNorm a) ++ ([] : List Char)
        = emitVal (sortNorm b) ++ [] := by simp [h2]
    exact (emitVal_inj (sortNorm a) (sortNorm b) [] [] rfl rfl h3).1
  · intro h
    simp [dumps, h]

/-- C9: the claimed equivalence fails: `\x7b"term": True\x7d` and
`\x7b"term": 1\x7d` are equal as Python values (`True == 1`), yet their
sorted-key serializations `\x7b"term": true\x7d` and `\x7b"term": 1\x7d`
differ, so the Reconciler reports a change between value-equal documents. -/
theorem c9_counterexample :
    pyEq (.obj (.cons "term" (.bool true) .nil))
        (.obj (.cons "term" (.num 1) .nil)) = true ∧
    dumps (.obj (.cons "term" (.bool true) .nil)) ≠
        dumps (.obj (.cons "term" (.num 1) .nil)) := by
  constructor
  · decide
  · decide

/-- C9 (amended): for duplicate-key-free documents (as `json.loads`
yields), the sorted-key canonical serializations are equal exactly when
the documents agree up to recursive key ordering, and serialization
equality implies Python `==`; the converse implication fails because
Python `==` also identifies `True` with `1`. -/
theorem c9_serialization_equality (a b : Json)
    (ha : wfJ a = true) (hb : wfJ b = true) :
    (dumps a = dumps b ↔ sortNorm a = sortNorm b) ∧
    (dumps a = dumps b → pyEq a b = true) :=
  ⟨dumps_eq_iff a b,
    fun h => pyEq_of_sortNorm a b ha hb ((dumps_eq_iff a b).mp h)⟩

theorem c9_witness :
    wfJ (.obj (.cons "a" (.num 2) (.cons "b" (.num 1) .nil))) = true ∧
    ((dumps (.obj (.cons "a" (.num 2) (.cons "b" (.num 1) .nil)))
        = dumps (.obj (.cons "b" (.num 1) (.cons "a" (.num 2) .nil))) ↔
      sortNorm (.obj (.cons "a" (.num 2) (.cons "b" (.num 1) .nil)))
        = sortNorm (.obj (.cons "b" (.num 1) (.cons "a" (.num 2) .nil)))) ∧
     (dumps (.obj (.cons "a" (.num 2) (.cons "b" (.num 1) .nil)))
        = dumps (.obj (.cons "b" (.num 1) (.cons "a" (.num 2) .nil))) →
      pyEq (.obj (.cons "a" (.num 2) (.cons "b" (.num 1) .nil)))
        (.obj (.cons "b" (.num 1) (.cons "a" (.num 2) .nil))) = true)) :=
  ⟨by decide,
    c9_serialization_equality
      (.obj (.cons "a" (.num 2) (.cons "b" (.num 1) .nil)))
      (.obj (.cons "b" (.num 1) (.cons "a" (.num 2) .nil)))
      (by decide) (by decide)⟩

/-- C1: when the validated candidate equals the stored dataset after
excluding `lastUpdated` from both, the run prints the single no-changes
notice and persists the old dataset with only `lastUpdated` replaced by
today's date — the refreshed document maps `lastUpdated` to today and
every other key to its old value — and the run succeeds. -/
theorem c1_no_change (k : String) (cd : Json) (resp td prompt raw : String)
    (curFs updFs : JObj) (cs : JArr)
    (hk : k ≠ "") (hcd : cd = .obj curFs)
    (hp : buildUserPrompt cd td = some prompt)
    (hn : pyNormalize resp = some raw)
    (he : jsonParse raw = .ok (.obj updFs))
    (hlk : JObj.lookup "cases" updFs = some (.arr cs))
    (hchk : checkCasesLoop cs = some none)
    (heq : sortNorm (.obj (JObj.stripLU curFs))
      = sortNorm (.obj (JObj.stripLU updFs))) :
    updateCases cd resp td =
      ([.readStore, .apiCall prompt, .out "No changes detected.",
        .writeStore
          (dumpsPersist (.obj (JObj.set curFs "lastUpdated" (.str td))) ++ "\n")],
       some true) ∧
    JObj.lookup "lastUpdated" (JObj.set curFs "lastUpdated" (.str td)) =
      some (.str td) ∧
    (∀ key, key ≠ "lastUpdated" →
        JObj.lookup key (JObj.set curFs "lastUpdated" (.str td)) =
          JObj.lookup key curFs) ∧
    (mainRun (some k) cd resp td).2 = some 0 := by
  subst hcd
  have hu : updateCases (.obj curFs) resp td =
      ([.readStore, .apiCall prompt, .out "No changes detected.",
        .writeStore
          (dumpsPersist (.obj (JObj.set curFs "lastUpdated" (.str td))) ++ "\n")],
       some true) := by
    have hdeq : dumps (.obj (JObj.stripLU curFs))
        = dumps (.obj (JObj.stripLU updFs)) := (dumps_eq_iff _ _).mpr heq
    simp [updateCases, hp, hn, he, topCheck, hlk, hchk, reconcile, hdeq]
  refine ⟨hu, lookup_set_self curFs _ _, ?_, ?_⟩
  · intro key hkey
    exact lookup_set_other curFs _ _ key hkey
  · simp [mainRun, hk, hu]

/-- C1 witness: a concrete no-op run — the candidate differs only in
`lastUpdated`, the notice is printed once, and the written document is the
old dataset with the refreshed date. -/
theorem c1_witness :
    updateCases wCurEmpty wRespNoChange "2025-10-12" =
      ([.readStore, .apiCall ((buildUserPrompt wCurEmpty "2025-10-12").getD ""),
        .out "No changes detected.",
        .writeStore
          (dumpsPersist (.obj (JObj.set
            (JObj.ofList [("lastUpdated", .str "2025-01-01"), ("term", .str "T"),
              ("cases", .arr .nil)]) "lastUpdated" (.str "2025-10-12"))) ++ "\n")],
       some true) :=
  (c1_no_change "k" wCurEmpty wRespNoChange "2025-10-12"
    ((buildUserPrompt wCurEmpty "2025-10-12").getD "") wRespNoChange
    (JObj.ofList [("lastUpdated", .str "2025-01-01"), ("term", .str "T"),
      ("cases", .arr .nil)])
    (JObj.ofList [("lastUpdated", .str "2025-10-12"), ("term", .str "T"),
      ("cases", .arr .nil)])
    .nil (by decide) rfl rfl (by decide) (by decide) (by decide) (by decide)
    (by decide)).1

theorem assocGet_mem (k v : Json) :
    ∀ ids : List (Json × Json), assocGet ids k = some v →
      ∃ k2, (k2, v) ∈ ids
  | [] => by intro h; simp [assocGet] at h
  | (k2, v2) :: rest => by
    intro h
    simp only [assocGet] at h
    by_cases hk : pyEq k2 k = true
    · rw [if_pos hk, Option.some.injEq] at h
      exact ⟨k2, by simp [h]⟩
    · rw [if_neg hk] at h
      obtain ⟨k3, hm⟩ := assocGet_mem k v rest h
      exact ⟨k3, List.mem_cons_of_mem _ hm⟩

theorem logLoop_filterMap : ∀ (ids : List (Json × Json)) (cs : JArr),
    (∀ q ∈ ids, (pyGetItem q.2 "status").isSome = true) →
    (∀ c ∈ cs.toList,
      (∃ v, pyGetItem c "id" = some v ∧ isHashable v = true) ∧
      (pyGetItem c "name").isSome = true ∧
      (pyGetItem c "status").isSome = true) →
    logLoop ids cs = (cs.toList.filterMap (changeLine ids), some ())
  | ids, .nil => fun _ _ => by simp [logLoop, JArr.toList]
  | ids, .cons c rest => fun hos hrec => by
    obtain ⟨⟨idv, hid, hhash⟩, hname, hstat⟩ := hrec c (by simp [JArr.toList])
    have ih := logLoop_filterMap ids rest hos
      (fun c2 hm => hrec c2
        (by simp only [JArr.toList, List.mem_cons]; exact Or.inr hm))
    obtain ⟨nm, hnm⟩ := Option.isSome_iff_exists.mp hname
    obtain ⟨cst, hcst⟩ := Option.isSome_iff_exists.mp hstat
    rcases hag : assocGet ids idv with _ | old
    · have hcl : changeLine ids c = some (.out ("  NEW: " ++ pyStr nm)) := by
        simp [changeLine, hid, hag, hnm]
      simp only [logLoop, hid, if_pos hhash, hag, hnm, ih]
      simp [JArr.toList, List.filterMap_cons, hcl]
    · have hols : (pyGetItem old "status").isSome = true := by
        obtain ⟨k2, hmem⟩ := assocGet_mem idv old ids hag
        exact hos (k2, old) hmem
      obtain ⟨osv, hosv⟩ := Option.isSome_iff_exists.mp hols
      by_cases hsn : pyNeN (pyDictGet old "status") (pyDictGet c "status") = true
      · have hcl : changeLine ids c = some (.out ("  STATUS CHANGE: "
            ++ pyStr nm ++ ": " ++ pyStr osv ++ " -> " ++ pyStr cst)) := by
          simp [changeLine, hid, hag, if_pos hsn, hnm, hosv, hcst]
        simp only [logLoop, hid, if_pos hhash, hag, if_pos hsn, hnm, hosv,
          hcst, ih]
        simp [JArr.toList, List.filterMap_cons, hcl]
      · by_cases heq : pyEq old c = true
        · have hcl : changeLine ids c = none := by
            simp [changeLine, hid, hag, if_neg hsn, if_pos heq]
          simp only [logLoop, hid, if_pos hhash, hag, if_neg hsn,
            if_pos heq, ih]
          simp [JArr.toList, List.filterMap_cons, hcl]
        · have hcl : changeLine ids c
              = some (.out ("  UPDATED: " ++ pyStr nm)) := by
            simp [changeLine, hid, hag, if_neg hsn, if_neg heq, hnm]
          simp only [logLoop, hid, if_pos hhash, hag, if_neg hsn,
            if_neg heq, hnm, ih]
          simp [JArr.toList, List.filterMap_cons, hcl]

/-- C2: when the validated candidate differs from the stored dataset after
excluding `lastUpdated` from both, the run writes the candidate document
verbatim, prints the count line, and then prints exactly one classified
change-log line per candidate record in the candidate's record order —
NEW when its id is absent from the old-ids dict, STATUS CHANGE (with old
and new status values) when the statuses differ, UPDATED when anything
else differs, and no line otherwise — records present only in the old
dataset contribute nothing, and the run succeeds. -/
theorem c2_changed (k : String) (cd : Json) (resp td prompt raw : String)
    (curFs updFs : JObj) (cs oldCs : JArr) (oldIds : List (Json × Json))
    (hk : k ≠ "") (hcd : cd = .obj curFs)
    (hp : buildUserPrompt cd td = some prompt)
    (hn : pyNormalize resp = some raw)
    (he : jsonParse raw = .ok (.obj updFs))
    (hlk : JObj.lookup "cases" updFs = some (.arr cs))
    (hchk : checkCasesLoop cs = some none)
    (hoc : (JObj.lookup "cases" curFs).getD (.arr .nil) = .arr oldCs)
    (hbo : buildOldIds [] oldCs = some oldIds)
    (hos : ∀ q ∈ oldIds, (pyGetItem q.2 "status").isSome = true)
    (hrec : ∀ c ∈ cs.toList,
      (∃ v, pyGetItem c "id" = some v ∧ isHashable v = true) ∧
      (pyGetItem c "name").isSome = true ∧
      (pyGetItem c "status").isSome = true)
    (hne : sortNorm (.obj (JObj.stripLU curFs))
      ≠ sortNorm (.obj (JObj.stripLU updFs))) :
    updateCases cd resp td =
      ([.readStore, .apiCall prompt,
        .writeStore (dumpsPersist (.obj updFs) ++ "\n"),
        .out ("Updated " ++ toString (JArr.length cs) ++ " cases.")]
        ++ cs.toList.filterMap (changeLine oldIds),
       some true) ∧
    (mainRun (some k) cd resp td).2 = some 0 := by
  subst hcd
  have hdne : dumps (.obj (JObj.stripLU curFs))
      ≠ dumps (.obj (JObj.stripLU updFs)) :=
    fun h => hne ((dumps_eq_iff _ _).mp h)
  have hll := logLoop_filterMap oldIds cs hos hrec
  have hu : updateCases (.obj curFs) resp td =
      ([.readStore, .apiCall prompt,
        .writeStore (dumpsPersist (.obj updFs) ++ "\n"),
        .out ("Updated " ++ toString (JArr.length cs) ++ " cases.")]
        ++ cs.toList.filterMap (changeLine oldIds),
       some true) := by
    simp [updateCases, hp, hn, he, topCheck, hlk, hchk, reconcile, hdne,
      hoc, pyIterate, hbo, hll]
  exact ⟨hu, by simp [mainRun, hk, hu]⟩

/-- C2 witness: a concrete changed run — the single case's status moves
from Argued to Decided, the candidate document is written verbatim, and
the log holds exactly the STATUS CHANGE line. -/
theorem c2_witness :
    updateCases wCurOne wRespStatus "2025-10-12" =
      ([.readStore, .apiCall ((buildUserPrompt wCurOne "2025-10-12").getD ""),
        .writeStore (dumpsPersist wCandStatus ++ "\n"),
        .out "Updated 1 cases.",
        .out "  STATUS CHANGE: A v. B: Argued -> Decided"], some true) :=
  (c2_changed "k" wCurOne wRespStatus "2025-10-12"
    ((buildUserPrompt wCurOne "2025-10-12").getD "") (dumpsPersist wCandStatus)
    (JObj.ofList [("lastUpdated", .str "2025-01-01"), ("term", .str "T"),
      ("cases", .arr (.cons (wCase 1 "A v. B" "Argued") .nil))])
    (JObj.ofList [("lastUpdated", .str "2025-10-12"), ("term", .str "T"),
      ("cases", .arr (.cons (wCase 1 "A v. B" "Decided") .nil))])
    (.cons (wCase 1 "A v. B" "Decided") .nil)
    (.cons (wCase 1 "A v. B" "Argued") .nil)
    [(.num 1, wCase 1 "A v. B" "Argued")]
    (by decide) rfl rfl (by decide) (by decide) (by decide) (by decide)
    (by decide) (by decide)
    (by intro q hq; simp at hq; subst hq; decide)
    (by
      intro c hc
      simp [JArr.toList] at hc
      subst hc
      exact ⟨⟨.num 1, by decide, by decide⟩, by decide, by decide⟩)
    (by decide)).1
